import Mathlib

/-!
Verification development for the hh-rumors-presto repository.

The repository consists of several near-duplicate Netlify function variants
(`netlify/functions/fetchRumors.js` and the unnamed variant files) that fetch
"rumor" items about a sports subject, normalize them, deduplicate, rank by
date and select an output window.

Shallow embedding conventions used throughout this file:
* JavaScript strings are modelled as `List Char` (`Str` below); the
  fixed-width parts relevant to the program are ASCII, where JS UTF-16
  code-unit semantics and code-point semantics agree.
* The DOM parser (jsdom), the generic `new Date(...)` parser and the network
  are external collaborators of the program (spec §6); they are modelled as
  oracle fields of an explicit `Env` record.  Everything the program itself
  computes is translated from the source.
* `Array.prototype.sort` with the comparator
  `(a,b) => (b.date||"") > (a.date||"") ? 1 : -1` never returns 0, so it is
  not an ECMAScript "consistent comparison function" and the sort order is
  implementation-defined.  The comparator-induced relation
  `¬ (a.date < b.date)` is total and transitive (`item1Le_total`,
  `item1Le_trans`), so every engine whose sort respects the comparator
  returns *some* permutation that is pairwise sorted under it, with
  equal-date ties in an engine-chosen order (stable engines keep input
  order; V8's TimSort reverses such ties).  Claims sensitive to the tie
  order are therefore stated over the envelope `jsSortOrders` of all
  comparator-respecting permutations; inside whole-handler models where
  the tie order is irrelevant (debug invariance), `List.mergeSort` serves
  as one admissible deterministic execution.
* `try { ... } catch { ... }` is modelled with `Except` where the body can
  fail, and by total functions where the body cannot.
-/

set_option maxHeartbeats 1000000

namespace HH

/-- Strings of the JavaScript program, modelled as lists of characters. -/
abbrev Str := List Char

/-- Coercion helper from Lean string literals to the model's strings. -/
def str (s : String) : Str := s.data

/-- Characters matched by the JavaScript regex class `\s` (the subset that
can actually occur in the program's data; representative of the full set). -/
def isJsWsChar (c : Char) : Bool :=
  c == ' ' || c == '\t' || c == '\n' || c == '\r' ||
  c.toNat == 11 || c.toNat == 12 || c.toNat == 160 ||
  c.toNat == 0x2028 || c.toNat == 0x2029 || c.toNat == 0xFEFF

/-- Inner loop of `s.replace(/\s+/g, " ")`: every maximal run of whitespace
is replaced by a single space.  The flag records whether the previous
character was part of a whitespace run. -/
def collapseWsGo : Bool → Str → Str
  | _, [] => []
  | inRun, c :: t =>
    if isJsWsChar c then
      if inRun then collapseWsGo true t else ' ' :: collapseWsGo true t
    else c :: collapseWsGo false t

/-- Drop the maximal trailing run of characters satisfying `p`. -/
def dropTrailing (p : Char → Bool) : Str → Str
  | [] => []
  | c :: t =>
    match dropTrailing p t with
    | [] => if p c then [] else [c]
    | r => c :: r

/-- Strip characters satisfying `p` from both ends of a string. -/
def trimWhile (p : Char → Bool) (l : Str) : Str :=
  dropTrailing p (l.dropWhile p)

/-- Model of `String.prototype.trim`. -/
def trimStr (l : Str) : Str := trimWhile isJsWsChar l

/-- Model of the source's `clean`:
`(s || "").replace(/\s+/g, " ").trim()` (identical in every variant). -/
def cleanStr (l : Str) : Str := trimWhile isJsWsChar (collapseWsGo false l)

/-- Model of `String.prototype.toLowerCase` on the program's data
(ASCII-effective; `Char.toLower` lowercases exactly `A`–`Z`). -/
def lowerStr (l : Str) : Str := l.map Char.toLower

/-- Canonical decompositions used by `normalize("NFD")` for the Latin
letters the program can meet; all other characters are NFD-inert.  The
decomposed combining marks are in the U+0300–U+036F block that the source
strips right afterwards. -/
def nfdTable : List (Char × Str) :=
  [ ('À', ['A', '̀']), ('Á', ['A', '́']), ('Â', ['A', '̂']),
    ('Ã', ['A', '̃']), ('Ä', ['A', '̈']), ('Å', ['A', '̊']),
    ('à', ['a', '̀']), ('á', ['a', '́']), ('â', ['a', '̂']),
    ('ã', ['a', '̃']), ('ä', ['a', '̈']), ('å', ['a', '̊']),
    ('È', ['E', '̀']), ('É', ['E', '́']), ('Ê', ['E', '̂']),
    ('Ë', ['E', '̈']),
    ('è', ['e', '̀']), ('é', ['e', '́']), ('ê', ['e', '̂']),
    ('ë', ['e', '̈']),
    ('Ì', ['I', '̀']), ('Í', ['I', '́']), ('Î', ['I', '̂']),
    ('Ï', ['I', '̈']),
    ('ì', ['i', '̀']), ('í', ['i', '́']), ('î', ['i', '̂']),
    ('ï', ['i', '̈']),
    ('Ò', ['O', '̀']), ('Ó', ['O', '́']), ('Ô', ['O', '̂']),
    ('Õ', ['O', '̃']), ('Ö', ['O', '̈']),
    ('ò', ['o', '̀']), ('ó', ['o', '́']), ('ô', ['o', '̂']),
    ('õ', ['o', '̃']), ('ö', ['o', '̈']),
    ('Ù', ['U', '̀']), ('Ú', ['U', '́']), ('Û', ['U', '̂']),
    ('Ü', ['U', '̈']),
    ('ù', ['u', '̀']), ('ú', ['u', '́']), ('û', ['u', '̂']),
    ('ü', ['u', '̈']),
    ('Ý', ['Y', '́']), ('ý', ['y', '́']), ('ÿ', ['y', '̈']),
    ('Ñ', ['N', '̃']), ('ñ', ['n', '̃']),
    ('Ç', ['C', '̧']), ('ç', ['c', '̧']),
    ('Č', ['C', '̌']), ('č', ['c', '̌']), ('Ć', ['C', '́']),
    ('ć', ['c', '́']), ('Š', ['S', '̌']), ('š', ['s', '̌']),
    ('Ž', ['Z', '̌']), ('ž', ['z', '̌']) ]

/-- NFD decomposition of a single character (see `nfdTable`). -/
def nfdChar (c : Char) : Str :=
  match nfdTable.find? (fun e => e.1 == c) with
  | some e => e.2
  | none => [c]

/-- Model of `String.prototype.normalize("NFD")`. -/
def nfd (l : Str) : Str := l.flatMap nfdChar

/-- Combining diacritical marks: the regex class `[̀-ͯ]`. -/
def combiningMark (c : Char) : Bool := 0x300 ≤ c.toNat && c.toNat ≤ 0x36F

/-- Model of `.replace(/[̀-ͯ]/g, "")`. -/
def stripMarks (l : Str) : Str := l.filter (fun c => !(combiningMark c))

/-- Model of `.replace(/&/g, " and ")`. -/
def ampToAnd (l : Str) : Str :=
  l.flatMap (fun c => if c == '&' then (" and ").data else [c])

/-- Characters in the regex class `[a-z0-9]`. -/
def isSlugChar (c : Char) : Bool :=
  (97 ≤ c.toNat && c.toNat ≤ 122) || (48 ≤ c.toNat && c.toNat ≤ 57)

/-- Model of `.replace(/[^a-z0-9]+/g, "_")`: every maximal run of
non-alphanumeric characters becomes a single underscore. -/
def collapseNonAlnum : Bool → Str → Str
  | _, [] => []
  | inRun, c :: t =>
    if isSlugChar c then c :: collapseNonAlnum false t
    else if inRun then collapseNonAlnum true t
    else '_' :: collapseNonAlnum true t

/-- Model of the source's `slugify` (part_001/part_002/part_004) and
`slugifyTag` (part_000), which are textually identical:
`clean(q).normalize("NFD").replace(/[̀-ͯ]/g,"").toLowerCase()
  .replace(/&/g," and ").replace(/[^a-z0-9]+/g,"_").replace(/^_+|_+$/g,"")`. -/
def slugify (l : Str) : Str :=
  trimWhile (fun c => c == '_')
    (collapseNonAlnum false (ampToAnd (lowerStr (stripMarks (nfd (cleanStr l))))))

/-- String-level wrapper of `slugify`, under the part_000 source name. -/
def slugifyTag (s : String) : String := ⟨slugify s.data⟩

/-- Characters in the regex class `[A-Za-z]`. -/
def isAsciiLetter (c : Char) : Bool :=
  (65 ≤ c.toNat && c.toNat ≤ 90) || (97 ≤ c.toNat && c.toNat ≤ 122)

/-- Characters in the regex class `\d`. -/
def isDigitCh (c : Char) : Bool := 48 ≤ c.toNat && c.toNat ≤ 57

/-- Continuation of `tryMDY` after the comma: `\s+(\d{4})`. -/
def mdyAfterComma (mon day r3 : Str) : Option (Str × Str × Str) :=
  let ws2 := r3.takeWhile isJsWsChar
  if ws2.isEmpty then none else
  let ds := (r3.drop ws2.length).takeWhile isDigitCh
  if 4 ≤ ds.length then some (mon, day, ds.take 4) else none

/-- Attempt to match the regex `([A-Za-z]+)\s+(\d{1,2}),\s+(\d{4})` at the
start of `l`, returning the three capture groups.  Backtracking is resolved:
the letter run, both whitespace runs and the day digits are forced (the
adjacent character classes are disjoint), and `(\d{1,2})` greedily takes two
digits when the following character is a comma, else one digit before a
comma, else fails. -/
def tryMDY (l : Str) : Option (Str × Str × Str) :=
  let mon := l.takeWhile isAsciiLetter
  if mon.isEmpty then none else
  let r1 := l.drop mon.length
  let ws1 := r1.takeWhile isJsWsChar
  if ws1.isEmpty then none else
  match r1.drop ws1.length with
  | d1 :: rest =>
    if !(isDigitCh d1) then none else
    match rest with
    | d2 :: rest2 =>
      if isDigitCh d2 then
        match rest2 with
        | ',' :: r3 => mdyAfterComma mon [d1, d2] r3
        | _ => none
      else if d2 == ',' then mdyAfterComma mon [d1] rest2
      else none
    | [] => none
  | [] => none

/-- Leftmost match of `([A-Za-z]+)\s+(\d{1,2}),\s+(\d{4})` in `l`
(`RegExp.prototype.exec` scans start positions left to right). -/
def findMDY : Str → Option (Str × Str × Str)
  | [] => none
  | c :: t =>
    match tryMDY (c :: t) with
    | some m => some m
    | none => findMDY t

/-- The month-name table `MONTHS` of part_001/part_002/part_004. -/
def monthsTable : List (Str × Nat) :=
  [ (("january").data, 1), (("february").data, 2), (("march").data, 3),
    (("april").data, 4), (("may").data, 5), (("june").data, 6),
    (("july").data, 7), (("august").data, 8), (("september").data, 9),
    (("october").data, 10), (("november").data, 11), (("december").data, 12) ]

/-- Model of `parseInt(s, 10)` on a string of decimal digits. -/
def parseIntDigits (l : Str) : Nat :=
  l.foldl (fun a c => a * 10 + (c.toNat - 48)) 0

/-- Model of `String(n).padStart(2, "0")`. -/
def pad2N (n : Nat) : Str :=
  let s := (Nat.repr n).data
  if s.length < 2 then '0' :: s else s

/-- Model of `extractISODate` (part_001 lines 42–50, part_002 lines 40–48,
and the identical `toISOFromHeading` of part_004): find a
`"Month DD, YYYY"` pattern, look the month up in `MONTHS`, and rebuild a
zero-padded `YYYY-MM-DD` string; empty string when the regex does not match
or the month name is unknown. -/
def extractISODate (txt : Str) : Str :=
  match findMDY txt with
  | none => []
  | some (mon, day, yr) =>
    match List.lookup (lowerStr mon) monthsTable with
    | none => []
    | some mm =>
      yr ++ '-' :: (pad2N mm ++ '-' :: pad2N (parseIntDigits day))

/-- String-level wrapper of `extractISODate`. -/
def extractISODateS (s : String) : String := ⟨extractISODate s.data⟩

/-- Shape check used to state claims about `extractISODate` output:
ten characters `YYYY-MM-DD`, all digits in the right places, month between
01 and 12. -/
def isoShapeMonthOk (l : Str) : Bool :=
  match l with
  | [y1, y2, y3, y4, h1, m1, m2, h2, d1, d2] =>
    isDigitCh y1 && isDigitCh y2 && isDigitCh y3 && isDigitCh y4 &&
    h1 == '-' && h2 == '-' &&
    isDigitCh m1 && isDigitCh m2 && isDigitCh d1 && isDigitCh d2 &&
    (1 ≤ (m1.toNat - 48) * 10 + (m2.toNat - 48) &&
      (m1.toNat - 48) * 10 + (m2.toNat - 48) ≤ 12)
  | _ => false

/-- Day-in-range check used to state that an output of `extractISODate` can
fail to be a valid calendar date: the day component must be between 01 and
31 for the string to possibly denote a calendar date. -/
def isoDayInRange (l : Str) : Bool :=
  match l with
  | [_, _, _, _, _, _, _, _, d1, d2] =>
    let d := (d1.toNat - 48) * 10 + (d2.toNat - 48)
    1 ≤ d && d ≤ 31
  | _ => false

end HH

namespace HH

/-! Substring containment, `String.prototype.includes`. -/

/-- Check that `needle` is a prefix of `hay` (literal match). -/
def leadsWith : Str → Str → Bool
  | _, [] => true
  | [], _ :: _ => false
  | h :: hs, n :: ns => h == n && leadsWith hs ns

/-- Model of `hay.includes(needle)`. -/
def subIn : Str → Str → Bool
  | [], needle => needle.isEmpty
  | h :: t, needle => leadsWith (h :: t) needle || subIn t needle

/-- Model of `s.split(",")` (single-character separator, keeps empties). -/
def splitComma : Str → Str → List Str
  | cur, [] => [cur.reverse]
  | cur, c :: t =>
    if c == ',' then cur.reverse :: splitComma [] t else splitComma (c :: cur) t

/-- Model of `s.split(/\s+/)`: maximal whitespace runs separate tokens, a
leading or trailing run contributes an empty token, `""` splits to `[""]`.
The flag records whether we are inside a separator run. -/
def splitWsGo : Bool → Str → Str → List Str
  | _, cur, [] => [cur.reverse]
  | inSep, cur, c :: t =>
    if isJsWsChar c then
      if inSep then splitWsGo true cur t
      else cur.reverse :: splitWsGo true [] t
    else splitWsGo false (c :: cur) t

/-- Model of `s.split(/\s+/)` (entry point). -/
def splitWs (l : Str) : List Str := splitWsGo false [] l

/-! Model of the DOM trees handed over by the external parser (jsdom), and
of the program's operations on them. -/

/-- A parsed document node: a text node or an element with tag name,
attributes and children.  Attribute and tag names are stored the way the
HTML parser exposes them (lowercase for HTML documents). -/
inductive HNode where
  | text (s : Str)
  | elem (tag : Str) (attrs : List (Str × Str)) (children : List HNode)

/-- Children of a node (`[]` for text nodes). -/
def childrenOf : HNode → List HNode
  | .text _ => []
  | .elem _ _ cs => cs

/-- Model of `getAttribute`: value of the first attribute with the given
name, `none` when absent. -/
def getAttrVal (name : Str) (attrs : List (Str × Str)) : Option Str :=
  (attrs.find? (fun a => a.1 == name)).map (fun a => a.2)

mutual

/-- Model of the DOM `textContent`: concatenation of all descendant text. -/
def textContent : HNode → Str
  | .text s => s
  | .elem _ _ cs => textContentList cs

/-- Text content of a list of sibling nodes. -/
def textContentList : List HNode → Str
  | [] => []
  | n :: ns => textContent n ++ textContentList ns

end

mutual

/-- All descendant-or-self anchor elements, in document order. -/
def anchorsInNode : HNode → List HNode
  | .text _ => []
  | .elem tag attrs cs =>
    (if lowerStr tag == ("a").data then [HNode.elem tag attrs cs] else []) ++
      anchorsInList cs

/-- Anchors of a list of sibling nodes, in document order. -/
def anchorsInList : List HNode → List HNode
  | [] => []
  | n :: ns => anchorsInNode n ++ anchorsInList ns

end

/-- Model of `el.querySelectorAll("a")` on an element: descendant anchors
in document order (the element itself excluded). -/
def anchorsOf (n : HNode) : List HNode := anchorsInList (childrenOf n)

/-- The attribute transformation `paragraphHTML` applies to an anchor:
remove every attribute except `href`, then add `target="_blank"` when a
non-empty `href` is present (`rel` was already removed by the loop). -/
def anchorKeptAttrs (attrs : List (Str × Str)) : List (Str × Str) :=
  let kept := attrs.filter (fun a => a.1 == ("href").data)
  match getAttrVal (("href").data) attrs with
  | some h => if h.isEmpty then kept else kept ++ [(("target").data, ("_blank").data)]
  | none => kept

mutual

/-- Net effect of the mutation loop in `paragraphHTML`
(part_001 lines 59–73, part_004 lines 238–255) on one subtree, processed in
document order: an anchor keeps its (filtered) attributes and recursively
transformed children; every other element is replaced by a text node
holding its text content. -/
def transformNode : HNode → HNode
  | .text s => .text s
  | .elem tag attrs cs =>
    if lowerStr tag == ("a").data then
      .elem tag (anchorKeptAttrs attrs) (transformList cs)
    else .text (textContent (.elem tag attrs cs))

/-- Transformation of a list of sibling nodes. -/
def transformList : List HNode → List HNode
  | [] => []
  | n :: ns => transformNode n :: transformList ns

end

/-- HTML text serialization escaping. -/
def escTextChar (c : Char) : Str :=
  if c == '&' then ("&amp;").data
  else if c == '<' then ("&lt;").data
  else if c == '>' then ("&gt;").data
  else if c.toNat == 160 then ("&nbsp;").data
  else [c]

/-- HTML attribute-value serialization escaping. -/
def escAttrChar (c : Char) : Str :=
  if c == '&' then ("&amp;").data
  else if c == '"' then ("&quot;").data
  else if c.toNat == 160 then ("&nbsp;").data
  else [c]

/-- Serialization of one attribute, as `innerHTML` renders it. -/
def serializeAttr (a : Str × Str) : Str :=
  ' ' :: (a.1 ++ '=' :: '"' :: (a.2.flatMap escAttrChar ++ ['"']))

mutual

/-- Model of the HTML fragment serialization used by `innerHTML`. -/
def serializeNode : HNode → Str
  | .text s => s.flatMap escTextChar
  | .elem tag attrs cs =>
    '<' :: (lowerStr tag ++ attrs.flatMap serializeAttr ++
      '>' :: (serializeList cs ++ '<' :: '/' :: (lowerStr tag ++ ['>'])))

/-- Serialization of a list of sibling nodes. -/
def serializeList : List HNode → Str
  | [] => []
  | n :: ns => serializeNode n ++ serializeList ns

end

/-- Model of `paragraphHTML` (part_001 lines 59–73, part_004 lines 238–255):
clone the block, rewrite every descendant (anchors keep `href` and gain
`target="_blank"`, everything else is unwrapped to text), serialize the
children, collapse whitespace and trim. -/
def paragraphHTML (p : HNode) : Str :=
  cleanStr (serializeList (transformList (childrenOf p)))

/-- Attribute handling described by the specification for `paragraphHTML`:
anchors retain only the `href` attribute and nothing else.  Modelled from
the spec for comparison with `anchorKeptAttrs`. -/
def anchorSpecAttrs (attrs : List (Str × Str)) : List (Str × Str) :=
  attrs.filter (fun a => a.1 == ("href").data)

mutual

/-- Modelled from the spec: subtree transformation in which every
non-anchor descendant is unwrapped to its text and every anchor keeps only
`href` (no added attributes). -/
def transformNodeSpec : HNode → HNode
  | .text s => .text s
  | .elem tag attrs cs =>
    if lowerStr tag == ("a").data then
      .elem tag (anchorSpecAttrs attrs) (transformListSpec cs)
    else .text (textContent (.elem tag attrs cs))

/-- Spec-modelled transformation of sibling nodes. -/
def transformListSpec : List HNode → List HNode
  | [] => []
  | n :: ns => transformNodeSpec n :: transformListSpec ns

end

/-- Modelled from the spec: the markup-preserving snippet as claim C4
describes it (serialization of the spec transformation). -/
def paragraphHTMLSpec (p : HNode) : Str :=
  cleanStr (serializeList (transformListSpec (childrenOf p)))

end HH

namespace HH

/-! Subject matcher builder (`matchMode` in fetchRumors.js/part_003,
`buildMatcher` in part_000, textually identical). -/

/-- Characters in the regex class `[a-z]`. -/
def isLowerAZ (c : Char) : Bool := 97 ≤ c.toNat && c.toNat ≤ 122

/-- Characters in the regex class `[A-Z]`. -/
def isUpperAZ (c : Char) : Bool := 65 ≤ c.toNat && c.toNat ≤ 90

/-- Characters in the regex class `\w` (used by `\b`). -/
def isWordChar (c : Char) : Bool := isAsciiLetter c || isDigitCh c || c == '_'

/-- The static `TEAM_ALIASES` table of fetchRumors.js (lines 7–20). -/
def teamAliases : List (Str × List Str) :=
  [ (("lakers").data, [("los angeles lakers").data, ("lal").data, ("lakers").data]),
    (("clippers").data, [("los angeles clippers").data, ("lac").data, ("clippers").data]),
    (("knicks").data, [("new york knicks").data, ("nyk").data, ("knicks").data]),
    (("nets").data, [("brooklyn nets").data, ("bkn").data, ("nets").data]),
    (("heat").data, [("miami heat").data, ("mia").data, ("heat").data]),
    (("bucks").data, [("milwaukee bucks").data, ("mil").data, ("bucks").data]),
    (("celtics").data, [("boston celtics").data, ("bos").data, ("celtics").data]),
    (("sixers").data, [("philadelphia 76ers").data, ("phi").data, ("76ers").data, ("sixers").data]),
    (("mavs").data, [("dallas mavericks").data, ("dal").data, ("mavericks").data, ("mavs").data]),
    (("suns").data, [("phoenix suns").data, ("phx").data, ("suns").data]),
    (("warriors").data, [("golden state warriors").data, ("gsw").data, ("warriors").data]),
    (("thunder").data, [("oklahoma city thunder").data, ("okc").data, ("thunder").data]) ]

/-- Wordness of the character at index `i` of `hay` (`false` outside). -/
def wordAt (hay : Str) (i : Nat) : Bool :=
  match (hay.drop i).head? with
  | some c => isWordChar c
  | none => false

/-- The regex assertion `\b` at position `i` of `hay`. -/
def boundaryAt (hay : Str) (i : Nat) : Bool :=
  (decide (i ≠ 0) && wordAt hay (i - 1)) != wordAt hay i

/-- Case-insensitive literal match of `needle` at position `i` of `hay`. -/
def matchesAtCI (hay needle : Str) (i : Nat) : Bool :=
  lowerStr ((hay.drop i).take needle.length) == lowerStr needle

/-- Whether `\b<needle>\b` (needle taken literally, case-insensitively)
matches somewhere in `hay`; models `.test` of the player-mode regex for one
alternative. -/
def wordBoundOccurs (needle hay : Str) : Bool :=
  (List.range (hay.length + 1)).any (fun i =>
    matchesAtCI hay needle i && boundaryAt hay i &&
      boundaryAt hay (i + needle.length))

/-- Model of `matchMode` (fetchRumors.js lines 29–46), identical to
`buildMatcher` (part_000 lines 372–392): builds the text predicate for a
subject in team, player or generic mode. -/
def matchMode (subject mode : Str) : Str → Bool :=
  let s := trimStr (lowerStr subject)
  if mode == ("team").data then
    let key := s.filter isLowerAZ
    let aliases := (List.lookup key teamAliases).getD [s]
    fun txt => aliases.any (fun a => subIn (lowerStr txt) a)
  else if mode == ("player").data then
    let parts := splitWs s
    let last := (parts.getLast?).getD []
    fun txt => (parts ++ [last]).any (fun p => wordBoundOccurs p txt)
  else
    fun txt => subIn (lowerStr txt) s

/-- Model of `buildMatcher` (part_000 lines 372–392), whose body is
textually identical to `matchMode`. -/
def buildMatcher (subject mode : Str) : Str → Bool := matchMode subject mode

/-! Source attribution heuristic (`normSource` in fetchRumors.js/part_003,
`sourceFrom` in part_000). -/

/-- Characters in the regex class `[A-Za-z0-9 .'-]`. -/
def isSrcClass (c : Char) : Bool :=
  isAsciiLetter c || isDigitCh c || c == ' ' || c == '.' || c == '\'' || c == '-'

/-- Attempt of the regex `via\s+([A-Za-z][A-Za-z0-9 .'-]+)` (the `/i` form
of `via\s+([A-Z]...)`) at position `i`; the whitespace run and the greedy
class run are forced. -/
def viaAt (l : Str) (i : Nat) : Option Str :=
  if matchesAtCI l (("via").data) i then
    let r := (l.drop i).drop 3
    let ws := r.takeWhile isJsWsChar
    if ws.isEmpty then none else
    match r.drop ws.length with
    | c0 :: r2 =>
      if isAsciiLetter c0 then
        let run := r2.takeWhile isSrcClass
        if run.isEmpty then none else some (c0 :: run)
      else none
    | [] => none
  else none

/-- Leftmost match of the `via` pattern. -/
def viaCapture (l : Str) : Option Str :=
  (List.range l.length).findSome? (viaAt l)

/-- Attempt of the end-anchored regex `[-–]\s*([A-Z][A-Za-z0-9 .'-]+)$`
(case-sensitive, as in `normSource`) at dash position `i`: optional
whitespace, a capital, then a nonempty class run that must reach the end of
the string. -/
def dashAt (l : Str) (i : Nat) : Option Str :=
  match l.drop i with
  | d :: r =>
    if d == '-' || d == '–' then
      let ws := r.takeWhile isJsWsChar
      match r.drop ws.length with
      | c0 :: r2 =>
        if isUpperAZ c0 then
          let run := r2.takeWhile isSrcClass
          if run.isEmpty then none
          else if (r2.drop run.length).isEmpty then some (c0 :: run) else none
        else none
      | [] => none
    else none
  | [] => none

/-- Leftmost match of the case-sensitive dash pattern. -/
def dashCapture (l : Str) : Option Str :=
  (List.range l.length).findSome? (dashAt l)

/-- Attempt of `[-–]\s*([A-Za-z][A-Za-z0-9 .'-]+)\s*$` (the `/i`,
trailing-whitespace form used by part_000's `sourceFrom`) at position `i`. -/
def dashAtI (l : Str) (i : Nat) : Option Str :=
  match l.drop i with
  | d :: r =>
    if d == '-' || d == '–' then
      let ws := r.takeWhile isJsWsChar
      match r.drop ws.length with
      | c0 :: r2 =>
        if isAsciiLetter c0 then
          let run := r2.takeWhile isSrcClass
          if run.isEmpty then none
          else if (r2.drop run.length).all isJsWsChar then some (c0 :: run) else none
        else none
      | [] => none
    else none
  | [] => none

/-- Leftmost match of the case-insensitive dash pattern. -/
def dashCaptureI (l : Str) : Option Str :=
  (List.range l.length).findSome? (dashAtI l)

/-- Model of `normSource` (fetchRumors.js lines 48–54): `via` pattern,
then trailing dash attribution on the trimmed text, then the fixed
fallback label. -/
def normSource (text : Str) : Str :=
  match viaCapture text with
  | some cap => trimStr cap
  | none =>
    match dashCapture (trimStr text) with
    | some cap => trimStr cap
    | none => ("HoopsHype").data

/-- Model of `sourceFrom` (part_000 lines 393–399): like `normSource` but
with the `/i`, trailing-whitespace dash pattern. -/
def sourceFrom (text : Str) : Str :=
  match viaCapture text with
  | some cap => trimStr cap
  | none =>
    match dashCaptureI (trimStr text) with
    | some cap => trimStr cap
    | none => ("HoopsHype").data

/-! Ranking, dedup and window selection. -/

/-- JS string comparison `a < b` (lexicographic by code unit). -/
def strLt : Str → Str → Bool
  | [], [] => false
  | [], _ :: _ => true
  | _ :: _, [] => false
  | a :: as, b :: bs =>
    if a.toNat < b.toNat then true
    else if b.toNat < a.toNat then false
    else strLt as bs

/-- Model of `Array.prototype.slice(s, e)` for non-negative indices. -/
def jsSlice (l : List α) (s e : Nat) : List α := (l.drop s).take (e - s)

/-- Remove later duplicates by key, keeping the first occurrence (the
`seen`-Set loops used by every variant).  `seen` holds already-kept keys. -/
def dedupBy (key : α → Str) : List α → List Str → List α
  | [], _ => []
  | x :: xs, seen =>
    if seen.contains (key x) then dedupBy key xs seen
    else x :: dedupBy key xs (key x :: seen)

/-- The window selection of the eight-item skip-newest variant
(part_001 line 199: `dedup.slice(1, 9)`). -/
def windowSkipNewest8 (l : List α) : List α := jsSlice l 1 9

/-- The window selection of the five-item skip-newest variant
(part_004 line 375: `dedup.slice(1, 6)`). -/
def windowSkipNewest5 (l : List α) : List α := jsSlice l 1 6

end HH

namespace HH

/-! External collaborators: the network and the document parser (spec §6),
modelled as oracles in an environment record. -/

/-- Outcome of one `fetch`: a network-level rejection, or a response with a
status and a body. -/
inductive FetchOutcome where
  | netError (msg : Str)
  | resp (status : Nat) (body : Str)

/-- One `<item>` of a parsed syndication feed, with the four sub-fields the
program reads (absent sub-fields surface as empty strings, matching
`?.textContent || ""`). -/
structure FeedEntry where
  title : Str
  link : Str
  pubDate : Str
  desc : Str
deriving DecidableEq, Repr

/-- One `<article>` card of an index page, with the pieces `getFromIndex`
reads: the resolved `href` of its first anchor (empty when absent), the
text of its first `h2`/`h3` (when present) and its own text content. -/
structure ArticleCard where
  firstAnchorHref : Str
  headText : Option Str
  text : Str
deriving DecidableEq, Repr

/-- The queries the program runs against one parsed article/search page:
`time[datetime]` attribute, first `article p` text, first `h1, h2` text,
`article`-or-body text, anchor `href` lists, and `<article>` cards. -/
structure DocModel where
  timeDatetime : Option Str
  articleFirstP : Option Str
  headingText : Option Str
  articleText : Str
  allAnchorHrefs : List Str
  articleAnchorHrefs : List Str
  cards : List ArticleCard
deriving DecidableEq, Repr

/-- The external collaborators of one invocation: the resource fetcher, the
document parser (one oracle per kind of query batch the program performs)
and the generic `new Date(...)` parser (`some` returns the
`toISOString()` rendering, `none` is an invalid date). -/
structure Env where
  fetch : Str → FetchOutcome
  parseFeed : Str → List FeedEntry
  parseDoc : Str → DocModel
  parseTagNodes : Str → List HNode
  jsDate : Str → Option Str

/-- The `res.ok` predicate of the Fetch API. -/
def isOkStatus (st : Nat) : Bool := 200 ≤ st && st ≤ 299

/-- Model of the source's `fetchText` helpers: reject on network error,
throw `HTTP <status> for <url>` on a non-ok status, else return the body. -/
def fetchTextE (env : Env) (url : Str) : Except Str Str :=
  match env.fetch url with
  | .netError m => .error m
  | .resp st b =>
    if isOkStatus st then .ok b
    else .error ((("HTTP ").data) ++ (Nat.repr st).data ++ ((" for ").data) ++ url)

/-- Model of `toISO` (fetchRumors.js lines 22–25, part_000 line 29):
`new Date(dstr)` via the oracle, empty string when invalid, else
`toISOString().slice(0, 10)`. -/
def toISO (env : Env) (dstr : Str) : Str :=
  match env.jsDate dstr with
  | none => []
  | some t => t.take 10

/-- Model of the JS `a || b` idiom on strings (empty string is falsy). -/
def orElseStr (a b : Str) : Str := if a.isEmpty then b else a

/-! The debug trace: a mutable bag of counters and values keyed by name. -/

/-- A value stored in the debug trace object. -/
inductive DbgVal where
  | num (n : Nat)
  | strv (s : Str)
  | strs (l : List Str)
deriving DecidableEq, Repr

/-- The debug trace: key/value pairs in insertion order. -/
abbrev Dbg := List (Str × DbgVal)

/-- Model of `dbg[k] = v` (replace in place or append). -/
def dbgSet : Dbg → Str → DbgVal → Dbg
  | [], k, v => [(k, v)]
  | (k', v') :: t, k, v =>
    if k' == k then (k', v) :: t else (k', v') :: dbgSet t k v

/-- Numeric read `dbg[k] || 0`. -/
def dbgNum (d : Dbg) (k : Str) : Nat :=
  match d.find? (fun e => e.1 == k) with
  | some (_, .num n) => n
  | _ => 0

/-- Model of `dbg[k] = (dbg[k] || 0) + n`. -/
def dbgAddNum (d : Dbg) (k : Str) (n : Nat) : Dbg :=
  dbgSet d k (.num (dbgNum d k + n))

/-! The response envelope (`json(code, body)`). -/

/-- Body of a response: a success payload or an error payload, each with an
optional attached debug object. -/
inductive Body (α : Type) where
  | ok (subject : Str) (items : List α) (dbg : Option Dbg)
  | err (msg : Str) (dbg : Option Dbg)
deriving DecidableEq, Repr

/-- A handler response: HTTP-equivalent status code plus body. -/
structure Resp (α : Type) where
  status : Nat
  body : Body α
deriving DecidableEq, Repr

/-- The `items` array of a response, when the body is a success payload. -/
def itemsOf : Resp α → Option (List α)
  | ⟨_, .ok _ items _⟩ => some items
  | ⟨_, .err _ _⟩ => none

/-- A response with any attached debug object removed. -/
def stripDbg : Resp α → Resp α
  | ⟨st, .ok s items _⟩ => ⟨st, .ok s items none⟩
  | ⟨st, .err m _⟩ => ⟨st, .err m none⟩

/-- The invocation parameters read from `event.queryStringParameters`. -/
structure Event where
  q : Option Str
  mode : Option Str
  debug : Option Str
deriving DecidableEq, Repr

/-! Rumor item records. -/

/-- The canonical five-field rumor item (`{title, url, date, source,
snippet}`) produced by part_000, part_002 and fetchRumors.js. -/
structure RumorItem where
  title : Str
  url : Str
  date : Str
  source : Str
  snippet : Str
deriving DecidableEq, Repr

/-- The intermediate item of part_001's `parseTagPage`. -/
structure Item1 where
  title : Str
  snippet_html : Str
  url : Str
  sourceName : Str
  date : Str
  lastAnchorText : Str
deriving DecidableEq, Repr

/-- The final payload item of part_001's handler. -/
structure Out1 where
  date : Str
  date_pretty : Str
  snippet_html : Str
  sourceName : Str
  sourceUrl : Str
  suppressSource : Bool
deriving DecidableEq, Repr

/-- The comparator-induced order of every `sort((a,b) =>
(b.date||"") > (a.date||"") ? 1 : -1)` call, on `Item1`. -/
def item1Le (a b : Item1) : Bool := !(strLt a.date b.date)

/-- The same comparator-induced order on `RumorItem`. -/
def rumorLe (a b : RumorItem) : Bool := !(strLt a.date b.date)

/-- The dedup key `` `${date}::${title.slice(0,n)}::${url}` `` shared by
the tag-page variants (`n` is 120 in part_001/part_004, 80 in part_002). -/
def itemKey (n : Nat) (date title url : Str) : Str :=
  date ++ (("::").data) ++ title.take n ++ (("::").data) ++ url

/-- The part_001 key (prefix length 120). -/
def key120 (it : Item1) : Str := itemKey 120 it.date it.title it.url

/-- The part_002 key (prefix length 80). -/
def key80R (it : RumorItem) : Str := itemKey 80 it.date it.title it.url

/-- The merge/dedup/rank stage of part_001's handler (lines 187–196) and
part_004's handler (lines 363–372) with the engine's equal-date tie order
fixed to the stable one: sort newest-first by date, then keep the first
occurrence of each composite key in the sorted order.  The program's sort
comparator never returns 0, so ECMAScript leaves the tie order
implementation-defined; this function is one admissible execution, used
inside the handler models for claims that do not depend on the tie order.
Tie-order-sensitive statements quantify over `jsSortOrders` instead. -/
def sortDedup1 (l : List Item1) : List Item1 :=
  dedupBy key120 (l.mergeSort item1Le) []

/-- Envelope of the outcomes of
`merged.sort((a,b) => (b.date||"") > (a.date||"") ? 1 : -1)`.  The
comparator never returns 0 (even on identical arguments), so it is not an
ECMAScript "consistent comparison function" and the resulting order is
implementation-defined: every conformant engine returns some permutation
of the input, and every engine sort that respects the comparator's induced
relation `item1Le` — which is total and transitive — returns a permutation
that is pairwise non-increasing by date, with equal-date ties in an
engine-chosen order.  Both the stable order and V8's TimSort order (which
reverses equal-date ties) lie in this envelope. -/
def jsSortOrders (l out : List Item1) : Prop :=
  List.Perm out l ∧ out.Pairwise (fun a b => item1Le a b = true)

end HH

namespace HH

/-! The preview tag-page pipelines (part_001 eight-item variant, part_002
five-item variant). -/

/-- Attributes of a node (`[]` for text nodes). -/
def attrsOf : HNode → List (Str × Str)
  | .text _ => []
  | .elem _ attrs _ => attrs

/-- Model of `el.tagName?.toLowerCase() || ""`. -/
def tagOfNode : HNode → Str
  | .text _ => []
  | .elem tag _ _ => lowerStr tag

/-- The hex digits used by `encodeURIComponent` (uppercase). -/
def hexDigit (n : Nat) : Char :=
  if n < 10 then Char.ofNat (48 + n) else Char.ofNat (55 + n)

/-- UTF-8 bytes of one character. -/
def utf8Bytes (c : Char) : List Nat :=
  let n := c.toNat
  if n < 0x80 then [n]
  else if n < 0x800 then [0xC0 + n / 64, 0x80 + n % 64]
  else if n < 0x10000 then
    [0xE0 + n / 4096, 0x80 + (n / 64) % 64, 0x80 + n % 64]
  else
    [0xF0 + n / 262144, 0x80 + (n / 4096) % 64, 0x80 + (n / 64) % 64,
      0x80 + n % 64]

/-- Characters `encodeURIComponent` leaves unescaped. -/
def uriUnreserved (c : Char) : Bool :=
  isAsciiLetter c || isDigitCh c || c == '-' || c == '_' || c == '.' ||
    c == '!' || c == '~' || c == '*' || c == '\'' || c == '(' || c == ')'

/-- Model of `encodeURIComponent`. -/
def encodeURIComponent (l : Str) : Str :=
  l.flatMap (fun c =>
    if uriUnreserved c then [c]
    else (utf8Bytes c).flatMap (fun b => ['%', hexDigit (b / 16), hexDigit (b % 16)]))

/-- The preview origin of the tag-page variants. -/
def PREVIEW_ORIGIN : Str := ("http://preview.hoopshype.com").data

/-- Model of the tag-page URL construction
`` PREVIEW_ORIGIN + `/rumors/tag/${encodeURIComponent(slug)}/` +
(page > 1 ? `page/${page}/` : "") ``. -/
def tagPageURL (slug : Str) (page : Nat) : Str :=
  PREVIEW_ORIGIN ++ (("/rumors/tag/").data) ++ encodeURIComponent slug ++
    (("/").data) ++
    (if page > 1 then (("page/").data) ++ (Nat.repr page).data ++ (("/").data)
      else [])

/-- One accepted block of part_001's `parseTagPage`: the last descendant
anchor supplies url and source name, `paragraphHTML` the snippet. -/
def item1Of (el : HNode) (text curDate : Str) : Item1 :=
  let anchors := anchorsOf el
  let lastA := anchors.getLast?
  let lastTxt := cleanStr (match lastA with | some a => textContent a | none => [])
  { title := text,
    snippet_html := paragraphHTML el,
    url := match lastA with
      | some a => (getAttrVal (("href").data) (attrsOf a)).getD []
      | none => [],
    sourceName := orElseStr lastTxt (("HoopsHype").data),
    date := curDate,
    lastAnchorText := lastTxt }

/-- The node walk of part_001's `parseTagPage` (lines 92–120): any element
whose cleaned text contains a `Month DD, YYYY` date updates the current
date; `p`/`li` elements under a current date with at least 15 characters of
text become items; at most 80 items per page. -/
def parseLoop1 : List HNode → Str → List Item1 → List Item1
  | [], _, acc => acc
  | el :: rest, cur, acc =>
    let text := cleanStr (textContent el)
    let iso := extractISODate text
    if !iso.isEmpty then parseLoop1 rest iso acc
    else
      let tag := tagOfNode el
      if (tag == ("p").data || tag == ("li").data) && !cur.isEmpty &&
          !text.isEmpty && !(text.length < 15) then
        let acc' := acc ++ [item1Of el text cur]
        if 80 ≤ acc'.length then acc' else parseLoop1 rest cur acc'
      else parseLoop1 rest cur acc

/-- Model of part_001's `parseTagPage` (lines 75–124), with its debug
counter updates. -/
def parseTagPage1 (nodes : List HNode) (dbg : Dbg) : List Item1 × Dbg :=
  let d1 := dbgAddNum dbg (("scannedNodes").data) nodes.length
  let out := parseLoop1 nodes [] []
  (out, dbgAddNum d1 (("parsedItemsOnPage").data) out.length)

/-- Per-tag merge step of `collectFromOneTag`: append parsed items whose
key was not seen yet. -/
def mergeKeyed (key : α → Str) : List α → List α → List Str → List α × List Str
  | [], items, seen => (items, seen)
  | x :: xs, items, seen =>
    if seen.contains (key x) then mergeKeyed key xs items seen
    else mergeKeyed key xs (items ++ [x]) (key x :: seen)

/-- The page loop of part_001's `collectFromOneTag` (lines 126–151): fetch
up to ten pages, stop at the first failing page (recording the error in the
debug trace) or once 150 items are collected. -/
def collectTagPages1 (env : Env) (slug : Str) :
    List Nat → List Item1 → List Str → Dbg → List Item1 × Dbg
  | [], items, _, dbg => (items, dbg)
  | page :: rest, items, seen, dbg =>
    match fetchTextE env (tagPageURL slug page) with
    | .error e =>
      (items,
        dbgSet dbg ((("page").data) ++ (Nat.repr page).data ++ (("Error_").data) ++ slug)
          (.strv e))
    | .ok html =>
      let pd := parseTagPage1 (env.parseTagNodes html) dbg
      let ms := mergeKeyed key120 pd.1 items seen
      if 150 ≤ ms.1.length then (ms.1, pd.2)
      else collectTagPages1 env slug rest ms.1 ms.2 pd.2

/-- Model of part_001's `collectFromOneTag`. -/
def collectFromOneTag (env : Env) (slug : Str) (dbg : Dbg) : List Item1 × Dbg :=
  collectTagPages1 env slug (List.range' 1 10) [] [] dbg

/-- The month-name array of `fmtMonthAbbrev`. -/
def monthAbbrevNames : List Str :=
  [("Jan.").data, ("Feb.").data, ("Mar.").data, ("Apr.").data, ("May").data,
   ("Jun.").data, ("Jul.").data, ("Aug.").data, ("Sep.").data, ("Oct.").data,
   ("Nov.").data, ("Dec.").data]

/-- Model of `fmtMonthAbbrev` (part_001 lines 153–159): re-render a
`YYYY-MM-DD` string as `Mon. D, YYYY` (a month outside 1..12 indexes off
the array, which JavaScript renders as the string `undefined`). -/
def fmtMonthAbbrev (dateStr : Str) : Str :=
  match dateStr with
  | [y1, y2, y3, y4, h1, m1, m2, h2, d1, d2] =>
    if isDigitCh y1 && isDigitCh y2 && isDigitCh y3 && isDigitCh y4 &&
        h1 == '-' && isDigitCh m1 && isDigitCh m2 && h2 == '-' &&
        isDigitCh d1 && isDigitCh d2 then
      let mon := (m1.toNat - 48) * 10 + (m2.toNat - 48)
      let d := (d1.toNat - 48) * 10 + (d2.toNat - 48)
      let nm := if 1 ≤ mon && mon ≤ 12 then
          ((monthAbbrevNames.drop (mon - 1)).head?).getD []
        else ("undefined").data
      nm ++ ' ' :: ((Nat.repr d).data ++ ',' :: ' ' :: [y1, y2, y3, y4])
    else []
  | _ => []

/-- Model of `.replace(/\/+$/, "")`. -/
def stripTrailSlash (l : Str) : Str := dropTrailing (fun c => c == '/') l

/-- Inner attempt of the regex
`<a[^>]*href="([^"]+)"[^>]*>([^<]+)<\/a>\s*$` after an `<a` at the current
position: `s` is the text following `<a`, `k` the candidate offset of the
literal `href="` inside the `[^>]*` span.  The runs for `([^"]+)`, `[^>]*`
and `([^<]+)` are forced by greediness against the following literal. -/
def anchorEndTry (s : Str) (k : Nat) : Option (Str × Str) :=
  if (s.take k).all (fun c => !(c == '>')) &&
      lowerStr ((s.drop k).take 5) == ("href=").data &&
      ((s.drop (k + 5)).take 1 == ['"']) then
    let afterQ := s.drop (k + 6)
    let h := afterQ.takeWhile (fun c => !(c == '"'))
    if h.isEmpty then none
    else
      match afterQ.drop h.length with
      | '"' :: rest3 =>
        let beta := rest3.takeWhile (fun c => !(c == '>'))
        match rest3.drop beta.length with
        | '>' :: rest4 =>
          let label := rest4.takeWhile (fun c => !(c == '<'))
          if label.isEmpty then none
          else
            let rest5 := rest4.drop label.length
            if lowerStr (rest5.take 4) == ("</a>").data &&
                (rest5.drop 4).all isJsWsChar then
              some (h, label)
            else none
        | _ => none
      | _ => none
  else none

/-- Attempt of the end-anchored anchor regex at position `i` of `l`:
requires `<a` (case-insensitive) and then tries the `href="` offsets
greedily (largest first, as `[^>]*` backtracks from the longest span). -/
def anchorEndAt (l : Str) (i : Nat) : Option (Str × Str) :=
  match l.drop i with
  | '<' :: c :: s =>
    if c == 'a' || c == 'A' then
      ((List.range (s.length + 1)).reverse).findSome? (anchorEndTry s)
    else none
  | _ => none

/-- Leftmost match of
`/<a[^>]*href="([^"]+)"[^>]*>([^<]+)<\/a>\s*$/i`, returning the `href`
value and the visible label. -/
def matchAnchorEnd (l : Str) : Option (Str × Str) :=
  (List.range l.length).findSome? (anchorEndAt l)

/-- Model of `bodyAlreadyHasSource` (part_001 lines 162–172): whether the
snippet already ends with an anchor whose target or label matches the
item's source. -/
def bodyAlreadyHasSource (it : Item1) : Bool :=
  if it.url.isEmpty then false
  else
    let url := stripTrailSlash it.url
    let txt := trimStr it.snippet_html
    match matchAnchorEnd txt with
    | none => false
    | some hl =>
      stripTrailSlash hl.1 == url ||
        lowerStr (cleanStr hl.2) == lowerStr it.sourceName

/-- The try-block of part_001's handler (lines 184–209): collect per slug,
merge, sort newest-first, dedup, skip the newest, map the next eight into
the payload shape.  The body is total (every fetch failure is caught
inside `collectFromOneTag`), so the handler's catch branch is dead. -/
def handler1Core (env : Env) (qRaw : Str) : List Out1 × Dbg :=
  let subjects := ((splitComma [] qRaw).map cleanStr).filter (fun s => !s.isEmpty)
  let slugs := subjects.map slugify
  let dbg0 : Dbg := [((("subjects").data), .strs subjects), ((("slugs").data), .strs slugs)]
  let md := slugs.foldl
    (fun acc slug =>
      let pd := collectFromOneTag env slug acc.2
      (acc.1 ++ pd.1, pd.2))
    (([] : List Item1), dbg0)
  let dedup := sortDedup1 md.1
  let window := windowSkipNewest8 dedup
  let items := window.map (fun it =>
    { date := it.date,
      date_pretty := fmtMonthAbbrev it.date,
      snippet_html := it.snippet_html,
      sourceName := it.sourceName,
      sourceUrl := it.url,
      suppressSource := bodyAlreadyHasSource it : Out1 })
  let dbgF := dbgSet (dbgSet (dbgSet md.2
      (("totalMerged").data) (.num md.1.length))
      (("totalAfterDedup").data) (.num dedup.length))
      (("returning").data) (.num items.length)
  (items, dbgF)

/-- Model of part_001's handler (lines 174–218). -/
def handler1 (env : Env) (ev : Event) : Resp Out1 :=
  let qRaw := trimStr (ev.q.getD [])
  let debug := ev.debug == some (("1").data)
  if qRaw.isEmpty then ⟨400, .err (("Missing q").data) none⟩
  else
    let r := handler1Core env qRaw
    ⟨200, .ok qRaw r.1 (if debug then some r.2 else none)⟩

/-- One accepted block of part_002's `parseTagPage` (five-field item). -/
def itemROf (el : HNode) (text curDate : Str) : RumorItem :=
  let anchors := anchorsOf el
  let lastA := anchors.getLast?
  { title := text,
    url := match lastA with
      | some a => (getAttrVal (("href").data) (attrsOf a)).getD []
      | none => [],
    date := curDate,
    source := orElseStr
      (cleanStr (match lastA with | some a => textContent a | none => []))
      (("HoopsHype").data),
    snippet := text }

/-- The node walk of part_002's `parseTagPage` (lines 79–107), identical to
part_001's walk except for the produced item shape. -/
def parseLoop2 : List HNode → Str → List RumorItem → List RumorItem
  | [], _, acc => acc
  | el :: rest, cur, acc =>
    let text := cleanStr (textContent el)
    let iso := extractISODate text
    if !iso.isEmpty then parseLoop2 rest iso acc
    else
      let tag := tagOfNode el
      if (tag == ("p").data || tag == ("li").data) && !cur.isEmpty &&
          !text.isEmpty && !(text.length < 15) then
        let acc' := acc ++ [itemROf el text cur]
        if 80 ≤ acc'.length then acc' else parseLoop2 rest cur acc'
      else parseLoop2 rest cur acc

/-- Model of part_002's `parseTagPage` (lines 62–111). -/
def parseTagPage2 (nodes : List HNode) (dbg : Dbg) : List RumorItem × Dbg :=
  let d1 := dbgAddNum dbg (("scannedNodes").data) nodes.length
  let out := parseLoop2 nodes [] []
  (out, dbgAddNum d1 (("parsedItemsOnPage").data) out.length)

/-- The page loop of part_002's `collectFromTag` (lines 118–137). -/
def collectTagPages2 (env : Env) (slug : Str) :
    List Nat → List RumorItem → List Str → Dbg → List RumorItem × Dbg
  | [], items, _, dbg => (items, dbg)
  | page :: rest, items, seen, dbg =>
    match fetchTextE env (tagPageURL slug page) with
    | .error e =>
      (items,
        dbgSet dbg ((("page").data) ++ (Nat.repr page).data ++ (("Error").data))
          (.strv e))
    | .ok html =>
      let pd := parseTagPage2 (env.parseTagNodes html) dbg
      let ms := mergeKeyed key80R pd.1 items seen
      if 150 ≤ ms.1.length then (ms.1, pd.2)
      else collectTagPages2 env slug rest ms.1 ms.2 pd.2

/-- Model of part_002's `collectFromTag` (lines 113–147): crawl, sort
newest-first, keep the first five items that have a url. -/
def collectFromTag (env : Env) (slug : Str) (dbg : Dbg) : List RumorItem × Dbg :=
  let cd := collectTagPages2 env slug (List.range' 1 10) [] [] dbg
  let sorted := cd.1.mergeSort rumorLe
  let top5 := (sorted.filter (fun x => !x.url.isEmpty)).take 5
  let d2 := dbgSet (dbgSet cd.2 (("totalCollected").data) (.num cd.1.length))
    (("returning").data) (.num top5.length)
  (top5, d2)

/-- The try-block of part_002's handler. -/
def handler2Core (env : Env) (q : Str) : List RumorItem × Dbg :=
  let slug := slugify q
  collectFromTag env slug [((("slug").data), .strv slug)]

/-- Model of part_002's handler (lines 149–163). -/
def handler2 (env : Env) (ev : Event) : Resp RumorItem :=
  let q := trimStr (ev.q.getD [])
  let debug := ev.debug == some (("1").data)
  if q.isEmpty then ⟨400, .err (("Missing q").data) none⟩
  else
    let r := handler2Core env q
    ⟨200, .ok q r.1 (if debug then some r.2 else none)⟩

end HH

namespace HH

/-! The two-strategy variant (netlify/functions/fetchRumors.js). -/

/-- The fixed category feed URL. -/
def RUMORS_FEED : Str := ("https://hoopshype.com/category/rumors/feed/").data

/-- The rumors index URL. -/
def RUMORS_INDEX : Str := ("https://hoopshype.com/rumors/").data

/-- The site-search feed URL builder of part_000
(`` `https://hoopshype.com/?s=${encodeURIComponent(q)}&feed=rss2` ``). -/
def searchRssUrl (q : Str) : Str :=
  ("https://hoopshype.com/?s=").data ++ encodeURIComponent q ++ ("&feed=rss2").data

/-- The rendered site-search URL builder of part_000. -/
def searchHtmlUrl (q : Str) : Str :=
  ("https://hoopshype.com/?s=").data ++ encodeURIComponent q

/-- Model of `.replace(/^https?:\/\/(www\.)?/i, "https://")`. -/
def normSchemePrefix (url : Str) : Str :=
  let low := lowerStr url
  if leadsWith low (("https://www.").data) then ("https://").data ++ url.drop 12
  else if leadsWith low (("http://www.").data) then ("https://").data ++ url.drop 11
  else if leadsWith low (("https://").data) then ("https://").data ++ url.drop 8
  else if leadsWith low (("http://").data) then ("https://").data ++ url.drop 7
  else url

/-- Model of part_000's `isRumorsLanding` (lines 400–404): compare against
the bare category landing URL after normalizing scheme and trailing
slashes. -/
def isRumorsLanding (url : Str) : Bool :=
  stripTrailSlash (normSchemePrefix url) == ("https://hoopshype.com/rumors").data

/-- The intermediate feed record of `getFromRSS`
(`{title, url, date, raw}`). -/
structure PreItem where
  title : Str
  url : Str
  date : Str
  raw : Str
deriving DecidableEq, Repr

/-- A collected `{url, title}` pair of `getFromIndex`. -/
structure TitleUrl where
  url : Str
  title : Str
deriving DecidableEq, Repr

/-- The intermediate feed record of the part_000 strategies
(`{title, url, date, desc}`). -/
structure FeedRec where
  title : Str
  url : Str
  date : Str
  desc : Str
deriving DecidableEq, Repr

/-- The comparator-induced order on `FeedRec`. -/
def feedLe (a b : FeedRec) : Bool := !(strLt a.date b.date)

/-- The `seen`-set loops capping unique entries
(`if (seen.has(k)) continue; seen.add(k); out.push(x);
if (out.length >= cap) break;`). -/
def takeUniqueBy (key : α → Str) (cap : Nat) : List α → List Str → List α
  | [], _ => []
  | x :: xs, seen =>
    if seen.contains (key x) then takeUniqueBy key cap xs seen
    else if cap ≤ seen.length + 1 then [x]
    else x :: takeUniqueBy key cap xs (key x :: seen)

/-- Hydration of one feed candidate in `getFromRSS` (lines 81–95): fetch
the article (a rejection falls into the catch branch, which pushes a
fallback item), read first paragraph, machine date, source. -/
def hydrateRSSItem (env : Env) (it : PreItem) : RumorItem :=
  match env.fetch it.url with
  | .netError _ =>
    { title := it.title, url := it.url, date := it.date,
      source := ("HoopsHype").data, snippet := it.title }
  | .resp _ html =>
    let doc := env.parseDoc html
    { title := it.title,
      url := it.url,
      date := orElseStr
        (match doc.timeDatetime with | some s => toISO env s | none => [])
        (orElseStr it.date []),
      source := orElseStr (normSource html) (normSource it.title),
      snippet := match doc.articleFirstP with
        | some t => cleanStr t
        | none => it.title }

/-- Model of `getFromRSS` (fetchRumors.js lines 58–98).  The primary feed
fetch is not guarded: a rejection or non-ok status makes the whole
strategy throw (`RSS not reachable`). -/
def getFromRSS (env : Env) (query mode : Str) : Except Str (List RumorItem) :=
  match env.fetch RUMORS_FEED with
  | .netError m => .error m
  | .resp st xml =>
    if !(isOkStatus st) then .error (("RSS not reachable").data)
    else
      let items := (env.parseFeed xml).map (fun it =>
        { title := it.title, url := it.link, date := toISO env it.pubDate,
          raw := it.title ++ ' ' :: it.desc : PreItem })
      let pre := (items.filter (fun x => matchMode query mode x.raw)).take 20
      let unique := takeUniqueBy (fun x : PreItem => x.url) 12 pre []
      let refined := unique.map (hydrateRSSItem env)
      .ok ((refined.mergeSort rumorLe).take 5)

/-- The page loop of `getFromIndex` (lines 101–116): a non-ok status skips
the page, but a network rejection is unguarded and aborts the strategy. -/
def indexCollectFR (env : Env) : List Str → List TitleUrl → Except Str (List TitleUrl)
  | [], acc => .ok acc
  | u :: us, acc =>
    match env.fetch u with
    | .netError m => .error m
    | .resp st html =>
      if !(isOkStatus st) then indexCollectFR env us acc
      else
        let doc := env.parseDoc html
        let items := doc.cards.filterMap (fun a =>
          if a.firstAnchorHref.isEmpty then none
          else some
            { url := a.firstAnchorHref,
              title := orElseStr (orElseStr (a.headText.getD []) a.text) [] : TitleUrl })
        indexCollectFR env us (acc ++ items)

/-- Hydration of one index candidate in `getFromIndex` (lines 127–141). -/
def hydrateIndexFR (env : Env) (it : TitleUrl) : RumorItem :=
  match env.fetch it.url with
  | .netError _ =>
    { title := it.title, url := it.url, date := [],
      source := ("HoopsHype").data, snippet := it.title }
  | .resp _ html =>
    let doc := env.parseDoc html
    { title := it.title,
      url := it.url,
      date := orElseStr
        (match doc.timeDatetime with | some s => toISO env s | none => []) [],
      source := orElseStr (normSource html) (normSource it.title),
      snippet := match doc.articleFirstP with
        | some t => cleanStr t
        | none => it.title }

/-- Model of `getFromIndex` (fetchRumors.js lines 100–144). -/
def getFromIndex (env : Env) (query mode : Str) : Except Str (List RumorItem) :=
  match indexCollectFR env
      [RUMORS_INDEX, RUMORS_INDEX ++ ("page/2/").data,
        RUMORS_INDEX ++ ("page/3/").data] [] with
  | .error m => .error m
  | .ok acc =>
    let filt := acc.filter (fun x => matchMode query mode x.title)
    let unique := takeUniqueBy (fun x : TitleUrl => x.url) 12 filt []
    let out := unique.map (hydrateIndexFR env)
    .ok ((out.mergeSort rumorLe).take 5)

/-- Model of the fetchRumors.js handler (lines 146–161): validate the
subject, try `getFromRSS`, fall back to `getFromIndex` when it throws, and
surface a remaining failure as a 500 error. -/
def handlerFR (env : Env) (ev : Event) : Resp RumorItem :=
  let q := trimStr (ev.q.getD [])
  let mode := lowerStr (ev.mode.getD (("player").data))
  if q.isEmpty then ⟨400, .err (("Missing q").data) none⟩
  else
    match getFromRSS env q mode with
    | .ok items => ⟨200, .ok q items none⟩
    | .error _ =>
      match getFromIndex env q mode with
      | .ok items => ⟨200, .ok q items none⟩
      | .error m => ⟨500, .err (orElseStr m (("Unknown error").data)) none⟩

/-! The four-strategy variant (part_000, third document). -/

/-- The hydration loop of `fromSearchRSS` (lines 434–456): per-candidate
failures are caught and skipped; accepted items are capped at five. -/
def fromSearchRSSLoop (env : Env) (matcher : Str → Bool) :
    List FeedRec → List RumorItem → List RumorItem
  | [], acc => acc
  | it :: rest, acc =>
    match fetchTextE env it.url with
    | .error _ => fromSearchRSSLoop env matcher rest acc
    | .ok html =>
      let doc := env.parseDoc html
      match doc.timeDatetime with
      | none => fromSearchRSSLoop env matcher rest acc
      | some dv =>
        let body := cleanStr doc.articleText
        if !(matcher (body ++ ' ' :: it.title ++ ' ' :: it.desc)) then
          fromSearchRSSLoop env matcher rest acc
        else
          let acc' := acc ++ [
            { title := cleanStr it.title,
              url := it.url,
              date := toISO env (orElseStr dv it.date),
              source := orElseStr (sourceFrom html) (sourceFrom it.title),
              snippet := cleanStr (match doc.articleFirstP with
                | some t => t
                | none => it.title) : RumorItem }]
          if 5 ≤ acc'.length then acc' else fromSearchRSSLoop env matcher rest acc'

/-- Model of strategy A, `fromSearchRSS` (part_000 lines 416–461): search
feed, keep rumor permalinks, sort newest-first, hydrate and filter on the
full body; any failure of the primary fetch makes the strategy return an
empty list (outer catch). -/
def fromSearchRSS (env : Env) (q : Str) (matcher : Str → Bool) (dbg : Dbg) :
    List RumorItem × Dbg :=
  match fetchTextE env (searchRssUrl q) with
  | .error _ => ([], dbg)
  | .ok xml =>
    let items := (env.parseFeed xml).map (fun it =>
      { title := it.title, url := it.link, date := toISO env it.pubDate,
        desc := it.desc : FeedRec })
    let candidates :=
      ((items.filter (fun x =>
        subIn x.url (("/rumors/").data) && !(isRumorsLanding x.url))).mergeSort feedLe)
    let d1 := dbgSet (dbgSet dbg (("rssCount").data) (.num items.length))
      (("rssRumorsCount").data) (.num candidates.length)
    (fromSearchRSSLoop env matcher candidates [], d1)

/-- The hydration loop of `fromSearchHTML` (lines 477–504). -/
def fromSearchHTMLLoop (env : Env) (matcher : Str → Bool) :
    List Str → List Str → List RumorItem → List RumorItem
  | [], _, acc => acc
  | url :: rest, seen, acc =>
    if url.isEmpty || seen.contains url then
      fromSearchHTMLLoop env matcher rest seen acc
    else
      let seen' := url :: seen
      match fetchTextE env url with
      | .error _ => fromSearchHTMLLoop env matcher rest seen' acc
      | .ok page =>
        let doc := env.parseDoc page
        match doc.timeDatetime with
        | none => fromSearchHTMLLoop env matcher rest seen' acc
        | some dv =>
          let body := cleanStr doc.articleText
          if !(matcher body) then fromSearchHTMLLoop env matcher rest seen' acc
          else
            let title := cleanStr (doc.headingText.getD [])
            let acc' := acc ++ [
              { title := title,
                url := url,
                date := toISO env (orElseStr dv []),
                source := orElseStr (sourceFrom page) (sourceFrom title),
                snippet := cleanStr (match doc.articleFirstP with
                  | some t => t
                  | none => title) : RumorItem }]
            if 5 ≤ acc'.length then acc'
            else fromSearchHTMLLoop env matcher rest seen' acc'

/-- Model of strategy B, `fromSearchHTML` (part_000 lines 464–510). -/
def fromSearchHTML (env : Env) (q : Str) (matcher : Str → Bool) (dbg : Dbg) :
    List RumorItem × Dbg :=
  match fetchTextE env (searchHtmlUrl q) with
  | .error _ => ([], dbg)
  | .ok html =>
    let doc := env.parseDoc html
    let links := doc.allAnchorHrefs.filter (fun u =>
      !u.isEmpty && subIn u (("/rumors/").data) && !(isRumorsLanding u))
    let d1 := dbgSet dbg (("searchLinks").data) (.num links.length)
    let out := fromSearchHTMLLoop env matcher links [] []
    ((out.mergeSort rumorLe).take 5, d1)

/-- The hydration loop of `fromRumorsFeed` (lines 525–549). -/
def fromRumorsFeedLoop (env : Env) (matcher : Str → Bool) :
    List FeedRec → List RumorItem → List RumorItem
  | [], acc => acc
  | it :: rest, acc =>
    if it.url.isEmpty || isRumorsLanding it.url then
      fromRumorsFeedLoop env matcher rest acc
    else
      match fetchTextE env it.url with
      | .error _ => fromRumorsFeedLoop env matcher rest acc
      | .ok html =>
        let doc := env.parseDoc html
        match doc.timeDatetime with
        | none => fromRumorsFeedLoop env matcher rest acc
        | some dv =>
          let body := cleanStr doc.articleText
          if !(matcher (body ++ ' ' :: it.title ++ ' ' :: it.desc)) then
            fromRumorsFeedLoop env matcher rest acc
          else
            let acc' := acc ++ [
              { title := cleanStr it.title,
                url := it.url,
                date := toISO env (orElseStr dv it.date),
                source := orElseStr (sourceFrom html) (sourceFrom it.title),
                snippet := cleanStr (match doc.articleFirstP with
                  | some t => t
                  | none => it.title) : RumorItem }]
            if 5 ≤ acc'.length then acc' else fromRumorsFeedLoop env matcher rest acc'

/-- Model of strategy C, `fromRumorsFeed` (part_000 lines 513–554); the
result is returned in feed order (no final sort in this strategy). -/
def fromRumorsFeed (env : Env) (q : Str) (matcher : Str → Bool) (dbg : Dbg) :
    List RumorItem × Dbg :=
  match fetchTextE env RUMORS_FEED with
  | .error _ => ([], dbg)
  | .ok xml =>
    let items := (env.parseFeed xml).map (fun it =>
      { title := it.title, url := it.link, date := toISO env it.pubDate,
        desc := it.desc : FeedRec })
    let d1 := dbgSet dbg (("rumorsFeedCount").data) (.num items.length)
    (fromRumorsFeedLoop env matcher items [], d1)

/-- Link collection over one index page of `fromRumorsIndex`
(lines 568–574): skip empty, seen and landing hrefs, cap at 80. -/
def collectIdxHrefs : List Str → List Str → List Str → List Str × List Str
  | [], links, seen => (links, seen)
  | h :: hs, links, seen =>
    if h.isEmpty || seen.contains h || isRumorsLanding h then
      collectIdxHrefs hs links seen
    else
      let links' := links ++ [h]
      if 80 ≤ links'.length then (links', h :: seen)
      else collectIdxHrefs hs links' (h :: seen)

/-- The page loop of `fromRumorsIndex` (lines 563–576): the page fetches
are not individually guarded, so any failing page aborts into the
strategy's outer catch. -/
def idxPages (env : Env) : List Str → List Str → List Str → Except Str (List Str)
  | [], links, _ => .ok links
  | u :: us, links, seen =>
    match fetchTextE env u with
    | .error e => .error e
    | .ok html =>
      let ls := collectIdxHrefs (env.parseDoc html).articleAnchorHrefs links seen
      if 80 ≤ ls.1.length then .ok ls.1 else idxPages env us ls.1 ls.2

/-- The hydration loop of `fromRumorsIndex` (lines 579–602). -/
def fromRumorsIndexLoop (env : Env) (matcher : Str → Bool) :
    List Str → List RumorItem → List RumorItem
  | [], acc => acc
  | url :: rest, acc =>
    match fetchTextE env url with
    | .error _ => fromRumorsIndexLoop env matcher rest acc
    | .ok html =>
      let doc := env.parseDoc html
      match doc.timeDatetime with
      | none => fromRumorsIndexLoop env matcher rest acc
      | some dv =>
        let body := cleanStr doc.articleText
        if !(matcher body) then fromRumorsIndexLoop env matcher rest acc
        else
          let title := cleanStr (doc.headingText.getD [])
          let acc' := acc ++ [
            { title := title,
              url := url,
              date := toISO env (orElseStr dv []),
              source := orElseStr (sourceFrom html) (sourceFrom title),
              snippet := cleanStr (match doc.articleFirstP with
                | some t => t
                | none => title) : RumorItem }]
          if 5 ≤ acc'.length then acc' else fromRumorsIndexLoop env matcher rest acc'

/-- Model of strategy D, `fromRumorsIndex` (part_000 lines 557–608). -/
def fromRumorsIndex (env : Env) (q : Str) (matcher : Str → Bool) (dbg : Dbg) :
    List RumorItem × Dbg :=
  match idxPages env
      [RUMORS_INDEX, RUMORS_INDEX ++ ("page/2/").data,
        RUMORS_INDEX ++ ("page/3/").data] [] [] with
  | .error _ => ([], dbg)
  | .ok links =>
    let d1 := dbgSet dbg (("indexLinks").data) (.num links.length)
    let out := fromRumorsIndexLoop env matcher links []
    ((out.mergeSort rumorLe).take 5, d1)

/-- Model of part_000's orchestrating handler (lines 611–626): build the
matcher, try the four strategies in order, accept the first non-empty
result, and always answer 200 (strategies never throw). -/
def handlerP0 (env : Env) (ev : Event) : Resp RumorItem :=
  let q := trimStr (ev.q.getD [])
  let mode := lowerStr (ev.mode.getD (("player").data))
  let debug := ev.debug == some (("1").data)
  if q.isEmpty then ⟨400, .err (("Missing q").data) none⟩
  else
    let matcher := buildMatcher q mode
    let r1 := fromSearchRSS env q matcher []
    let r2 := if !r1.1.isEmpty then r1 else fromSearchHTML env q matcher r1.2
    let r3 := if !r2.1.isEmpty then r2 else fromRumorsFeed env q matcher r2.2
    let r4 := if !r3.1.isEmpty then r3 else fromRumorsIndex env q matcher r3.2
    ⟨200, .ok q r4.1 (if debug then some r4.2 else none)⟩

end HH

namespace HH

/-! Auxiliary predicates used in theorem statements, and concrete fixtures
used by witnesses. -/

/-- Two-digit value reader (inverse view of `pad2N` on two-character
strings). -/
def pad2Val : Str → Nat
  | [a, b] => (a.toNat - 48) * 10 + (b.toNat - 48)
  | _ => 0

/-- No two adjacent underscores. -/
def noDD : Str → Bool
  | [] => true
  | [_] => true
  | a :: b :: t => !(a == '_' && b == '_') && noDD (b :: t)

/-- The first character, if any, is not an underscore. -/
def headNotUnd (l : Str) : Bool :=
  match l.head? with
  | some c => !(c == '_')
  | none => true

/-- The last character, if any, is not an underscore. -/
def lastNotUnd (l : Str) : Bool :=
  match l.getLast? with
  | some c => !(c == '_')
  | none => true

/-- Canonical slug shape: lowercase alphanumerics and single separating
underscores, with no underscore at either end.  `slugify` always produces
this shape and is the identity on it. -/
def isCanonicalSlug (l : Str) : Bool :=
  l.all (fun c => isSlugChar c || c == '_') && noDD l && headNotUnd l && lastNotUnd l

/-- Attribute list shape after `anchorKeptAttrs`: only `href` entries and
the added `target="_blank"` pair. -/
def attrsHrefTarget (attrs : List (Str × Str)) : Bool :=
  attrs.all (fun a =>
    a.1 == ("href").data || (a.1 == ("target").data && a.2 == ("_blank").data))

mutual

/-- Every element of the subtree is an anchor whose attributes are `href`
entries or the added `target="_blank"` pair. -/
def anchorClean : HNode → Bool
  | .text _ => true
  | .elem tag attrs cs =>
    (lowerStr tag == ("a").data) && attrsHrefTarget attrs && anchorCleanList cs

/-- List version of `anchorClean`. -/
def anchorCleanList : List HNode → Bool
  | [] => true
  | n :: ns => anchorClean n && anchorCleanList ns

end

/-- A parsed document with nothing in it. -/
def emptyDoc : DocModel :=
  { timeDatetime := none, articleFirstP := none, headingText := none,
    articleText := [], allAnchorHrefs := [], articleAnchorHrefs := [],
    cards := [] }

/-- An environment in which every fetch fails at the network level. -/
def envAllDown : Env :=
  { fetch := fun _ => .netError (("fetch failed").data),
    parseFeed := fun _ => [],
    parseDoc := fun _ => emptyDoc,
    parseTagNodes := fun _ => [],
    jsDate := fun _ => none }

/-- An environment in which the category feed answers 503 and everything
else fails at the network level. -/
def envFeedDown : Env :=
  { envAllDown with
    fetch := fun u =>
      if u == RUMORS_FEED then .resp 503 [] else .netError (("fetch failed").data) }

/-- A concrete invocation event with a subject and no debug flag. -/
def evJB : Event :=
  { q := some (("Jalen Brunson").data), mode := none, debug := none }

/-- A concrete paragraph block containing one inline source anchor. -/
def pWithLink : HNode :=
  .elem (("p").data) []
    [ .text (("Per source, the deal is done. ").data),
      .elem (("a").data) [((("href").data), (("http://x.com/a").data))]
        [ .text (("ESPN").data) ] ]

/-- Concrete item fixtures for the dedup witness: `itemA` and `itemB`
share the composite key, `itemC` does not. -/
def itemA : Item1 :=
  { title := ("Aaa spoke to media").data, snippet_html := ("first copy").data,
    url := ("http://h/u1").data, sourceName := ("S1").data,
    date := ("2025-10-15").data, lastAnchorText := ("S1").data }

/-- Second fixture item, same key as `itemA`, different payload. -/
def itemB : Item1 :=
  { title := ("Aaa spoke to media").data, snippet_html := ("second copy").data,
    url := ("http://h/u1").data, sourceName := ("S2").data,
    date := ("2025-10-15").data, lastAnchorText := ("S2").data }

/-- Third fixture item with a distinct key and an older date. -/
def itemC : Item1 :=
  { title := ("Ccc waived").data, snippet_html := ("third").data,
    url := ("http://h/u2").data, sourceName := ("S3").data,
    date := ("2025-10-14").data, lastAnchorText := ("S3").data }

/-- Fixture candidate list (oldest first, duplicate key present). -/
def demoItems : List Item1 := [itemC, itemA, itemB]

end HH

namespace HH

/-! Claim theorems and their witnesses. -/

/-- C2: in the skip-newest variants, given a deduplicated list of at least
N+1 items sorted newest-first, the window-selection step returns exactly
the items at 0-indexed positions 1..N (N = 8 for `dedup.slice(1, 9)` in
part_001, N = 5 for `dedup.slice(1, 6)` in part_004), excluding the item
at position 0. -/
theorem C2_window_selection (α : Type) (l : List α) :
    (9 ≤ l.length →
      (windowSkipNewest8 l).length = 8 ∧
        ∀ i, i < 8 → (windowSkipNewest8 l)[i]? = l[i + 1]?) ∧
    (6 ≤ l.length →
      (windowSkipNewest5 l).length = 5 ∧
        ∀ i, i < 5 → (windowSkipNewest5 l)[i]? = l[i + 1]?) := by
  constructor <;> intro h <;> constructor
  · simp only [windowSkipNewest8, jsSlice, List.length_take, List.length_drop]
    omega
  · intro i hi
    simp only [windowSkipNewest8, jsSlice]
    rw [List.getElem?_take_of_lt (by omega), List.getElem?_drop]
    congr 1
    omega
  · simp only [windowSkipNewest5, jsSlice, List.length_take, List.length_drop]
    omega
  · intro i hi
    simp only [windowSkipNewest5, jsSlice]
    rw [List.getElem?_take_of_lt (by omega), List.getElem?_drop]
    congr 1
    omega

/-- C2 witness: both window selections evaluated on a concrete nine-element
list. -/
theorem C2_window_selection_witness :
    (windowSkipNewest8 (List.range 9)).length = 8 ∧
      (windowSkipNewest5 (List.range 9)).length = 5 :=
  ⟨((C2_window_selection Nat (List.range 9)).1 (by decide)).1,
   ((C2_window_selection Nat (List.range 9)).2 (by decide)).1⟩

/-- C5: when the subject query parameter is absent or trims to the empty
string, the fetchRumors.js handler and the part_001 handler both answer a
client error 400 with body `error: "Missing q"`; the response is the same
constant for every environment, so no fetch influences (or is needed for)
the rejection. -/
theorem C5_missing_q (env : Env) (ev : Event)
    (h : trimStr (ev.q.getD []) = []) :
    handlerFR env ev = ⟨400, .err (("Missing q").data) none⟩ ∧
      handler1 env ev = ⟨400, .err (("Missing q").data) none⟩ := by
  constructor <;> simp [handlerFR, handler1, h]

/-- C5 witness: a concrete invocation without a subject, in the
all-failing environment. -/
theorem C5_missing_q_witness :
    handlerFR envAllDown { q := none, mode := none, debug := none } =
        ⟨400, .err (("Missing q").data) none⟩ ∧
      handler1 envAllDown { q := none, mode := none, debug := none } =
        ⟨400, .err (("Missing q").data) none⟩ :=
  C5_missing_q envAllDown { q := none, mode := none, debug := none } (by decide)

/-- C9: the debug flag does not influence item selection — for a fixed
environment and fixed invocation, the `items` of the part_001 and part_002
responses with `debug=1` equal those without it, and the whole responses
agree once the attached debug object is removed. -/
theorem C9_debug_no_influence (env : Env) (ev : Event) :
    (itemsOf (handler1 env { ev with debug := some (("1").data) }) =
        itemsOf (handler1 env { ev with debug := none }) ∧
      stripDbg (handler1 env { ev with debug := some (("1").data) }) =
        stripDbg (handler1 env { ev with debug := none })) ∧
    (itemsOf (handler2 env { ev with debug := some (("1").data) }) =
        itemsOf (handler2 env { ev with debug := none }) ∧
      stripDbg (handler2 env { ev with debug := some (("1").data) }) =
        stripDbg (handler2 env { ev with debug := none })) := by
  by_cases h : (trimStr (ev.q.getD [])).isEmpty <;>
    simp [handler1, handler2, h, itemsOf, stripDbg]

/-- C3 counterexample: the claim says every acquisition strategy returns an
empty list on irrecoverable internal failure rather than letting the error
propagate; but `getFromRSS` (fetchRumors.js lines 58–98) throws
`RSS not reachable` past its boundary when its primary feed fetch answers
a non-ok status. -/
theorem C3_counterexample :
    getFromRSS envFeedDown (("Jalen Brunson").data) (("player").data) =
      .error (("RSS not reachable").data) := by
  rfl

/-- C3 amended: in the four-strategy variant (part_000), a strategy whose
primary fetch fails returns an empty list (shown for the cited
`fromSearchRSS`), and the orchestrator, when every fetch fails and hence
all strategies are exhausted, terminates with a 200 envelope carrying an
empty items list rather than a hard failure; in the two-strategy variant,
`getFromRSS` instead propagates its primary-fetch error to the handler
(which catches it to fall back to `getFromIndex`). -/
theorem C3_amended :
    (∀ (env : Env) (q : Str) (matcher : Str → Bool) (dbg : Dbg) (e : Str),
      fetchTextE env (searchRssUrl q) = .error e →
        fromSearchRSS env q matcher dbg = ([], dbg)) ∧
    (∀ (env : Env) (eMsg : Str) (ev : Event),
      (∀ u, env.fetch u = .netError eMsg) →
      ev.debug = none →
      trimStr (ev.q.getD []) ≠ [] →
        handlerP0 env ev = ⟨200, .ok (trimStr (ev.q.getD [])) [] none⟩) := by
  constructor
  · intro env q matcher dbg e hfail
    simp [fromSearchRSS, hfail]
  · intro env eMsg ev hf hd hq
    have h1 : ∀ u, fetchTextE env u = .error eMsg := by
      intro u
      simp [fetchTextE, hf]
    simp [handlerP0, fromSearchRSS, fromSearchHTML, fromRumorsFeed,
      fromRumorsIndex, idxPages, h1, hd, hq, List.isEmpty_iff]

/-- C3 amended witness: the cited strategy and the orchestrator evaluated
in the concrete all-failing environment. -/
theorem C3_amended_witness :
    fromSearchRSS envAllDown (("Jalen Brunson").data) (fun _ => true) [] = ([], []) ∧
      handlerP0 envAllDown evJB =
        ⟨200, .ok (trimStr (evJB.q.getD [])) [] none⟩ :=
  ⟨C3_amended.1 envAllDown (("Jalen Brunson").data) (fun _ => true) []
      (("fetch failed").data) rfl,
   C3_amended.2 envAllDown (("fetch failed").data) evJB (fun _ => rfl)
      rfl (by decide)⟩

/-- C7: the human-date machinery yields `2025-10-15` on
`October 15, 2025`; the `Month DD, YYYY` path (`extractISODate`) returns
the empty string whenever the pattern does not match or the month name is
not in the table, and the generic path (`toISO`) returns the empty string
whenever `new Date` cannot parse the input; both are total functions, so
no exception can escape. -/
theorem C7_parse_human_date :
    extractISODateS "October 15, 2025" = "2025-10-15" ∧
    (∀ s : Str, findMDY s = none → extractISODate s = []) ∧
    (∀ (s : Str) (m : Str × Str × Str), findMDY s = some m →
      List.lookup (lowerStr m.1) monthsTable = none →
      extractISODate s = []) ∧
    (∀ (env : Env) (s : Str), env.jsDate s = none → toISO env s = []) := by
  refine ⟨by decide, ?_, ?_, ?_⟩
  · intro s h
    simp [extractISODate, h]
  · intro s m h hl
    obtain ⟨mon, day, yr⟩ := m
    simp only [extractISODate, h]
    rw [hl]
  · intro env s h
    simp [toISO, h]

/-- C7 witness: concrete unparseable inputs on both paths. -/
theorem C7_parse_human_date_witness :
    extractISODate (("total nonsense").data) = [] ∧
      toISO envAllDown (("garbage").data) = [] :=
  ⟨C7_parse_human_date.2.1 (("total nonsense").data) (by decide),
   C7_parse_human_date.2.2.2 envAllDown (("garbage").data) rfl⟩

end HH

namespace HH

/-- C8: the team-mode matcher built for subject `Lakers` accepts any text
containing `Los Angeles Lakers` and any text containing `LAL`
(case-insensitively, stated as containment in the lowercased text); and for
every subject whose compact alphabetic key misses the alias table, the
built matcher is exactly case-insensitive literal substring containment of
the lowercased, trimmed subject. -/
theorem C8_team_matcher :
    (∀ txt : Str, subIn (lowerStr txt) (("los angeles lakers").data) = true →
      matchMode (("Lakers").data) (("team").data) txt = true) ∧
    (∀ txt : Str, subIn (lowerStr txt) (("lal").data) = true →
      matchMode (("Lakers").data) (("team").data) txt = true) ∧
    (∀ (subject txt : Str),
      List.lookup ((trimStr (lowerStr subject)).filter isLowerAZ) teamAliases = none →
      matchMode subject (("team").data) txt =
        subIn (lowerStr txt) (trimStr (lowerStr subject))) := by
  have hunf : ∀ txt : Str,
      matchMode (("Lakers").data) (("team").data) txt =
        ([("los angeles lakers").data, ("lal").data, ("lakers").data].any
          (fun a => subIn (lowerStr txt) a)) := fun _ => rfl
  refine ⟨?_, ?_, ?_⟩
  · intro txt h
    rw [hunf]
    simp [h]
  · intro txt h
    rw [hunf]
    simp [h]
  · intro subject txt hmiss
    show ((List.lookup ((trimStr (lowerStr subject)).filter isLowerAZ)
        teamAliases).getD [trimStr (lowerStr subject)]).any
        (fun a => subIn (lowerStr txt) a) = _
    rw [hmiss]
    simp

/-- C8 witness: the Lakers matcher on concrete texts, and the fallback
matcher for the unknown key `spurs`. -/
theorem C8_team_matcher_witness :
    matchMode (("Lakers").data) (("team").data)
        (("Report: Los Angeles Lakers to sign a center").data) = true ∧
      matchMode (("Lakers").data) (("team").data)
        (("sources say LAL improved").data) = true ∧
      matchMode (("Spurs").data) (("team").data) (("who knows").data) =
        subIn (lowerStr (("who knows").data))
          (trimStr (lowerStr (("Spurs").data))) :=
  ⟨C8_team_matcher.1 (("Report: Los Angeles Lakers to sign a center").data) (by decide),
   C8_team_matcher.2.1 (("sources say LAL improved").data) (by decide),
   C8_team_matcher.2.2 (("Spurs").data) (("who knows").data) (by decide)⟩

end HH

namespace HH

mutual

/-- Helper for C4: the transformation preserves text content (node form,
proved mutually with the list form). -/
theorem textContent_transformNode :
    ∀ n : HNode, textContent (transformNode n) = textContent n
  | .text _ => rfl
  | .elem tag attrs cs => by
    by_cases h : lowerStr tag == ("a").data
    · simp only [transformNode, h, if_pos]
      show textContentList (transformList cs) = textContentList cs
      exact textContent_transformList cs
    · simp only [transformNode, h, if_neg, Bool.false_eq_true]
      rfl

/-- Helper for C4: the transformation preserves text content (list form). -/
theorem textContent_transformList :
    ∀ ns : List HNode, textContentList (transformList ns) = textContentList ns
  | [] => rfl
  | n :: ns => by
    show textContent (transformNode n) ++ textContentList (transformList ns) =
      textContent n ++ textContentList ns
    rw [textContent_transformNode n, textContent_transformList ns]

end

end HH

namespace HH

/-- Helper for C4: the filtered attribute list satisfies
`attrsHrefTarget`. -/
theorem attrsHrefTarget_filter (attrs : List (Str × Str)) :
    attrsHrefTarget (attrs.filter (fun a => a.1 == ("href").data)) = true := by
  simp only [attrsHrefTarget, List.all_eq_true]
  intro a ha
  have := List.of_mem_filter ha
  simp [this]

/-- Helper for C4: every attribute kept by `anchorKeptAttrs` is an `href`
entry or the added `target="_blank"` pair. -/
theorem mem_anchorKeptAttrs (attrs : List (Str × Str)) (a : Str × Str)
    (ha : a ∈ anchorKeptAttrs attrs) :
    a.1 = ("href").data ∨ a = ((("target").data), (("_blank").data)) := by
  unfold anchorKeptAttrs at ha
  cases hv : getAttrVal (("href").data) attrs with
  | none =>
    rw [hv] at ha
    dsimp only at ha
    exact Or.inl (by simpa using List.of_mem_filter ha)
  | some h =>
    rw [hv] at ha
    dsimp only at ha
    split at ha
    · exact Or.inl (by simpa using List.of_mem_filter ha)
    · rcases List.mem_append.mp ha with h1 | h1
      · exact Or.inl (by simpa using List.of_mem_filter h1)
      · exact Or.inr (List.mem_singleton.mp h1)

/-- Helper for C4: `anchorKeptAttrs` only keeps `href` entries and adds the
`target="_blank"` pair. -/
theorem attrsHrefTarget_anchorKeptAttrs (attrs : List (Str × Str)) :
    attrsHrefTarget (anchorKeptAttrs attrs) = true := by
  simp only [attrsHrefTarget, List.all_eq_true]
  intro a ha
  rcases mem_anchorKeptAttrs attrs a ha with h | h
  · simp [h]
  · simp [h]

mutual

/-- Helper for C4: every node produced by the transformation satisfies
`anchorClean` (node form). -/
theorem anchorClean_transformNode :
    ∀ n : HNode, anchorClean (transformNode n) = true
  | .text _ => rfl
  | .elem tag attrs cs => by
    rw [transformNode]
    by_cases h : lowerStr tag == ("a").data
    · rw [if_pos h]
      show ((lowerStr tag == ("a").data) && attrsHrefTarget (anchorKeptAttrs attrs) &&
        anchorCleanList (transformList cs)) = true
      rw [h, attrsHrefTarget_anchorKeptAttrs attrs, anchorClean_transformList cs]
      rfl
    · rw [if_neg h]
      rfl

/-- Helper for C4: list form of `anchorClean_transformNode`. -/
theorem anchorClean_transformList :
    ∀ ns : List HNode, anchorCleanList (transformList ns) = true
  | [] => rfl
  | n :: ns => by
    show (anchorClean (transformNode n) && anchorCleanList (transformList ns)) = true
    rw [anchorClean_transformNode n, anchorClean_transformList ns]
    rfl

end

end HH

namespace HH

/-- C4 counterexample: on a concrete paragraph holding one inline citation
anchor, `paragraphHTML` serializes the anchor with a `target="_blank"`
attribute added (`if (href) el.setAttribute("target","_blank")`), so the
output differs from the claim's description in which anchors retain only
`href` and no other attribute (`paragraphHTMLSpec`). -/
theorem C4_counterexample :
    paragraphHTML pWithLink =
      ("Per source, the deal is done. <a href=\"http://x.com/a\" target=\"_blank\">ESPN</a>").data ∧
    paragraphHTMLSpec pWithLink =
      ("Per source, the deal is done. <a href=\"http://x.com/a\">ESPN</a>").data ∧
    paragraphHTML pWithLink ≠ paragraphHTMLSpec pWithLink := by
  refine ⟨by decide, by decide, by decide⟩

/-- C4 amended: for every paragraph/list-item block, `paragraphHTML` is
the whitespace-collapsed serialization of the transformed children, in
which every surviving element is an anchor whose attributes are `href`
entries plus the added `target="_blank"` pair (anchors without a truthy
`href` keep no attribute and gain none), every non-anchor descendant has
been replaced by its plain text content, and the overall text content is
preserved. -/
theorem C4_amended (p : HNode) :
    paragraphHTML p = cleanStr (serializeList (transformList (childrenOf p))) ∧
    anchorCleanList (transformList (childrenOf p)) = true ∧
    textContentList (transformList (childrenOf p)) = textContentList (childrenOf p) :=
  ⟨rfl, anchorClean_transformList (childrenOf p),
    textContent_transformList (childrenOf p)⟩

end HH

namespace HH

/-- Helper for C10: shape of a successful `mdyAfterComma`: month and day
are passed through, the year is exactly four digit characters. -/
theorem mdyAfterComma_shape (mon day r3 : Str) (m : Str × Str × Str)
    (h : mdyAfterComma mon day r3 = some m) :
    m.1 = mon ∧ m.2.1 = day ∧ m.2.2.length = 4 ∧
      ∀ c ∈ m.2.2, isDigitCh c = true := by
  unfold mdyAfterComma at h
  dsimp only at h
  split at h
  · exact absurd h (by simp)
  · split at h
    · rename_i hlen
      cases h
      refine ⟨rfl, rfl, ?_, ?_⟩
      · simp only [List.length_take]
        omega
      · intro c hc
        exact List.mem_takeWhile_imp ((List.take_sublist _ _).mem hc)
    · exact absurd h (by simp)

/-- Helper for C10: shape of a successful `tryMDY`: the day is one or two
digit characters, the year exactly four. -/
theorem tryMDY_shape (l : Str) (m : Str × Str × Str)
    (h : tryMDY l = some m) :
    ((m.2.1.length = 1 ∨ m.2.1.length = 2) ∧ ∀ c ∈ m.2.1, isDigitCh c = true) ∧
      m.2.2.length = 4 ∧ ∀ c ∈ m.2.2, isDigitCh c = true := by
  unfold tryMDY at h
  dsimp only at h
  split at h
  · exact absurd h (by simp)
  · split at h
    · exact absurd h (by simp)
    · split at h
      case h_2 => exact absurd h (by simp)
      case h_1 d1 rest =>
        split at h
        · exact absurd h (by simp)
        · rename_i hd1
          split at h
          case h_2 => exact absurd h (by simp)
          case h_1 d2 rest2 =>
            split at h
            · split at h
              case isTrue.h_1 r3 =>
                rename_i hd2 _
                obtain ⟨-, h21, h22⟩ := mdyAfterComma_shape _ _ _ _ h
                refine ⟨⟨Or.inr (by rw [h21]; rfl), ?_⟩, h22⟩
                intro c hc
                rw [h21] at hc
                simp only [List.mem_cons, List.not_mem_nil, or_false] at hc
                rcases hc with rfl | rfl
                · simpa using hd1
                · exact hd2
              case isTrue.h_2 => exact absurd h (by simp)
            · split at h
              · obtain ⟨-, h21, h22⟩ := mdyAfterComma_shape _ _ _ _ h
                refine ⟨⟨Or.inl (by rw [h21]; rfl), ?_⟩, h22⟩
                intro c hc
                rw [h21] at hc
                simp only [List.mem_cons, List.not_mem_nil, or_false] at hc
                rcases hc with rfl
                simpa using hd1
              · exact absurd h (by simp)

/-- Helper for C10: the shape facts transfer to the leftmost match. -/
theorem findMDY_shape (l : Str) (m : Str × Str × Str)
    (h : findMDY l = some m) :
    ((m.2.1.length = 1 ∨ m.2.1.length = 2) ∧ ∀ c ∈ m.2.1, isDigitCh c = true) ∧
      m.2.2.length = 4 ∧ ∀ c ∈ m.2.2, isDigitCh c = true := by
  induction l with
  | nil => exact absurd h (by simp [findMDY])
  | cons c t ih =>
    rw [findMDY] at h
    cases htry : tryMDY (c :: t) with
    | some m' =>
      rw [htry] at h
      cases h
      exact tryMDY_shape _ _ htry
    | none =>
      rw [htry] at h
      exact ih h

/-- Helper for C10: the numeric value of one or two digit characters is
below 100. -/
theorem parseIntDigits_lt100 (day : Str)
    (hlen : day.length = 1 ∨ day.length = 2)
    (hd : ∀ c ∈ day, isDigitCh c = true) : parseIntDigits day < 100 := by
  rcases day with _ | ⟨a, _ | ⟨b, _ | _⟩⟩ <;> simp at hlen
  · have ha := hd a (by simp)
    simp only [isDigitCh, Bool.and_eq_true, decide_eq_true_eq] at ha
    simp only [parseIntDigits, List.foldl]
    omega
  · have ha := hd a (by simp)
    have hb := hd b (by simp)
    simp only [isDigitCh, Bool.and_eq_true, decide_eq_true_eq] at ha hb
    simp only [parseIntDigits, List.foldl]
    omega

/-- Helper for C10: `pad2N` of a value below 100 is two digit characters
reading back to the same value. -/
theorem pad2N_shape :
    ∀ v, v < 100 →
      (pad2N v).length = 2 ∧ (pad2N v).all isDigitCh = true ∧
        pad2Val (pad2N v) = v := by
  decide

/-- Helper for C10: every month value in the table is between 1 and 12. -/
theorem lookup_monthsTable_range (k : Str) (mm : Nat)
    (h : List.lookup k monthsTable = some mm) : 1 ≤ mm ∧ mm ≤ 12 := by
  have hgen : ∀ (t : List (Str × Nat)), (∀ e ∈ t, 1 ≤ e.2 ∧ e.2 ≤ 12) →
      List.lookup k t = some mm → 1 ≤ mm ∧ mm ≤ 12 := by
    intro t
    induction t with
    | nil => intro _ hl; simp [List.lookup] at hl
    | cons e es ih =>
      intro ht hl
      obtain ⟨k', v⟩ := e
      rw [List.lookup] at hl
      split at hl
      · cases hl
        exact ht (k', mm) (by simp)
      · exact ih (fun e he => ht e (List.mem_cons_of_mem _ he)) hl
  exact hgen monthsTable (by decide) h

end HH

namespace HH

/-- C10: every `extractISODate` output is either empty or has the shape
`YYYY-MM-DD` with a month component in 01..12; the day component is not
range-validated — any one- or two-digit day is zero-padded and accepted
verbatim, so `October 99, 2025` produces `2025-10-99`, whose day
component is outside 1..31 and hence not a valid calendar date. -/
theorem C10_no_day_validation :
    (∀ s : Str, extractISODate s = [] ∨
      isoShapeMonthOk (extractISODate s) = true) ∧
    extractISODateS "October 99, 2025" = "2025-10-99" ∧
    isoDayInRange (extractISODate (("October 99, 2025").data)) = false := by
  refine ⟨?_, by decide, by decide⟩
  intro s
  cases hf : findMDY s with
  | none => exact Or.inl (by simp [extractISODate, hf])
  | some m =>
    obtain ⟨mon, day, yr⟩ := m
    have hext : extractISODate s =
        (match List.lookup (lowerStr mon) monthsTable with
          | none => []
          | some mm => yr ++ '-' :: (pad2N mm ++ '-' :: pad2N (parseIntDigits day))) := by
      simp [extractISODate, hf]
    cases hl : List.lookup (lowerStr mon) monthsTable with
    | none =>
      rw [hext, hl]
      exact Or.inl rfl
    | some mm =>
      refine Or.inr ?_
      rw [hext, hl]
      dsimp only
      obtain ⟨⟨hdl, hdd⟩, hyl, hyd⟩ := findMDY_shape s _ hf
      simp only at hdl hdd hyl hyd
      obtain ⟨h1, h12⟩ := lookup_monthsTable_range _ _ hl
      obtain ⟨hml, hmd, hmv⟩ := pad2N_shape mm (by omega)
      obtain ⟨hdl2, hdd2, -⟩ :=
        pad2N_shape (parseIntDigits day) (parseIntDigits_lt100 day hdl hdd)
      rcases yr with _ | ⟨y1, _ | ⟨y2, _ | ⟨y3, _ | ⟨y4, _ | _⟩⟩⟩⟩ <;> simp at hyl
      rcases hpm : pad2N mm with _ | ⟨m1, _ | ⟨m2, _ | _⟩⟩ <;>
        rw [hpm] at hml <;> simp at hml
      rcases hpd : pad2N (parseIntDigits day) with _ | ⟨e1, _ | ⟨e2, _ | _⟩⟩ <;>
        rw [hpd] at hdl2 <;> simp at hdl2
      rw [hpm] at hmd hmv
      rw [hpd] at hdd2
      simp only [List.all_cons, List.all_nil, Bool.and_eq_true] at hmd hdd2
      simp only [pad2Val] at hmv
      have hy1 := hyd y1 (by simp)
      have hy2 := hyd y2 (by simp)
      have hy3 := hyd y3 (by simp)
      have hy4 := hyd y4 (by simp)
      simp only [List.cons_append, List.nil_append, isoShapeMonthOk]
      simp [hy1, hy2, hy3, hy4, hmd.1, hmd.2.1, hdd2.1, hdd2.2.1, hmv, h1, h12]

end HH

namespace HH

/-- Helper for C1: `strLt` is irreflexive. -/
theorem strLt_irrefl : ∀ l : Str, strLt l l = false
  | [] => rfl
  | c :: t => by
    rw [strLt]
    simp [Nat.lt_irrefl, strLt_irrefl t]

/-- Helper for C1: `strLt` is transitive. -/
theorem strLt_trans : ∀ a b c : Str, strLt a b = true → strLt b c = true →
    strLt a c = true
  | _, [], [], _, hbc => by simp [strLt] at hbc
  | [], [], _ :: _, hab, _ => by simp [strLt] at hab
  | _ :: _, [], _ :: _, hab, _ => by simp [strLt] at hab
  | [], _ :: _, [], _, hbc => by simp [strLt] at hbc
  | _ :: _, _ :: _, [], _, hbc => by simp [strLt] at hbc
  | [], _ :: _, _ :: _, _, _ => rfl
  | a0 :: as, b0 :: bs, c0 :: cs, hab, hbc => by
    rw [strLt] at hab hbc ⊢
    split at hab
    · rename_i h1
      split at hbc
      · rename_i h2
        simp [Nat.lt_trans h1 h2]
      · split at hbc
        · exact absurd hbc (by simp)
        · rename_i h2 h3
          simp [Nat.lt_of_lt_of_le h1 (Nat.not_lt.mp h3)]
    · split at hab
      · exact absurd hab (by simp)
      · rename_i h1 h2
        split at hbc
        · rename_i h3
          simp [Nat.lt_of_le_of_lt (Nat.not_lt.mp h2) h3]
        · split at hbc
          · exact absurd hbc (by simp)
          · rename_i h3 h4
            have e1 : a0.toNat = b0.toNat :=
              Nat.le_antisymm (Nat.not_lt.mp h2) (Nat.not_lt.mp h1)
            have e2 : b0.toNat = c0.toNat :=
              Nat.le_antisymm (Nat.not_lt.mp h4) (Nat.not_lt.mp h3)
            have hac : ¬ a0.toNat < c0.toNat := by
              rw [e1, e2]
              exact Nat.lt_irrefl _
            have hca : ¬ c0.toNat < a0.toNat := by
              rw [e1, e2]
              exact Nat.lt_irrefl _
            simpa [hac, hca] using strLt_trans as bs cs hab hbc

/-- Helper for C1: two strings neither of which is below the other are
equal. -/
theorem strLt_conn : ∀ a b : Str, strLt a b = false → strLt b a = false → a = b
  | [], [], _, _ => rfl
  | [], _ :: _, hab, _ => by simp [strLt] at hab
  | _ :: _, [], _, hba => by simp [strLt] at hba
  | a0 :: as, b0 :: bs, hab, hba => by
    rw [strLt] at hab hba
    split at hab
    · exact absurd hab (by simp)
    · split at hab
      · rename_i h1 h2
        rw [if_pos h2] at hba
        exact absurd hba (by simp)
      · rename_i h1 h2
        rw [if_neg h2, if_neg h1] at hba
        have hc : a0 = b0 :=
          Char.ext (UInt32.ext (Nat.le_antisymm (Nat.not_lt.mp h2) (Nat.not_lt.mp h1)))
        rw [hc, strLt_conn as bs hab hba]

/-- Helper for C1: the comparator-induced order on items is transitive. -/
theorem item1Le_trans (a b c : Item1) (h1 : item1Le a b = true)
    (h2 : item1Le b c = true) : item1Le a c = true := by
  simp only [item1Le, Bool.not_eq_true'] at h1 h2 ⊢
  by_contra hx
  have hac : strLt a.date c.date = true := by simpa using hx
  cases hba : strLt b.date a.date with
  | false =>
    have hEq := strLt_conn _ _ h1 hba
    rw [← hEq] at h2
    rw [h2] at hac
    exact absurd hac (by simp)
  | true =>
    have := strLt_trans _ _ _ hba hac
    rw [h2] at this
    exact absurd this (by simp)

/-- Helper for C1: the comparator-induced order on items is total. -/
theorem item1Le_total (a b : Item1) : item1Le a b || item1Le b a := by
  simp only [item1Le]
  cases h1 : strLt a.date b.date with
  | false => simp
  | true =>
    cases h2 : strLt b.date a.date with
    | false => simp
    | true =>
      have := strLt_trans _ _ _ h1 h2
      rw [strLt_irrefl] at this
      exact absurd this (by simp)

/-- Helper for C1: dedup keeps a sublist of its input. -/
theorem dedupBy_sublist (key : α → Str) :
    ∀ (l : List α) (seen : List Str), List.Sublist (dedupBy key l seen) l
  | [], _ => List.nil_sublist []
  | x :: xs, seen => by
    rw [dedupBy]
    split
    · exact (dedupBy_sublist key xs seen).cons x
    · exact (dedupBy_sublist key xs _).cons₂ x

/-- Helper for C1: every kept element has an unseen key and is the first
element of the input with its key. -/
theorem mem_dedupBy (key : α → Str) :
    ∀ (l : List α) (seen : List Str) (x : α), x ∈ dedupBy key l seen →
      seen.contains (key x) = false ∧
        l.find? (fun y => key y == key x) = some x
  | [], seen, x, hx => by simp [dedupBy] at hx
  | a :: as, seen, x, hx => by
    rw [dedupBy] at hx
    split at hx
    · rename_i hc
      obtain ⟨h1, h2⟩ := mem_dedupBy key as seen x hx
      refine ⟨h1, ?_⟩
      have hne : (key a == key x) = false := by
        by_contra hcon
        have hcon : key a = key x := by
          simpa using hcon
        rw [hcon] at hc
        rw [hc] at h1
        exact absurd h1 (by simp)
      simp [List.find?_cons, hne, h2]
    · rename_i hc
      rcases List.mem_cons.mp hx with rfl | hx
      · exact ⟨by simpa using hc, by simp [List.find?_cons]⟩
      · obtain ⟨h1, h2⟩ := mem_dedupBy key as (key a :: seen) x hx
        simp only [List.contains_cons, Bool.or_eq_false_iff] at h1
        refine ⟨h1.2, ?_⟩
        have hne : (key a == key x) = false := by
          have := h1.1
          simp only [beq_eq_false_iff_ne] at this ⊢
          exact fun hEq => this hEq.symm
        simp [List.find?_cons, hne, h2]

/-- Helper for C1: the kept keys are distinct. -/
theorem keys_dedupBy_nodup (key : α → Str) :
    ∀ (l : List α) (seen : List Str), ((dedupBy key l seen).map key).Nodup
  | [], _ => by simp [dedupBy]
  | a :: as, seen => by
    rw [dedupBy]
    split
    · exact keys_dedupBy_nodup key as seen
    · rw [List.map_cons]
      refine List.nodup_cons.mpr ⟨?_, keys_dedupBy_nodup key as _⟩
      intro hmem
      obtain ⟨y, hy, hky⟩ := List.mem_map.mp hmem
      obtain ⟨h1, -⟩ := mem_dedupBy key as (key a :: seen) y hy
      simp only [List.contains_cons, Bool.or_eq_false_iff,
        beq_eq_false_iff_ne] at h1
      exact h1.1 hky

/-- Helper for C1: a key survives dedup iff it occurs in the input and was
not already seen. -/
theorem mem_keys_dedupBy (key : α → Str) :
    ∀ (l : List α) (seen : List Str) (k : Str),
      k ∈ (dedupBy key l seen).map key ↔
        k ∈ l.map key ∧ seen.contains k = false
  | [], seen, k => by simp [dedupBy]
  | a :: as, seen, k => by
    rw [dedupBy]
    split
    · rename_i hc
      rw [mem_keys_dedupBy key as seen k]
      simp only [List.map_cons, List.mem_cons]
      constructor
      · rintro ⟨h1, h2⟩
        exact ⟨Or.inr h1, h2⟩
      · rintro ⟨h1 | h1, h2⟩
        · rw [h1] at h2
          rw [hc] at h2
          exact absurd h2 (by simp)
        · exact ⟨h1, h2⟩
    · rename_i hc
      simp only [List.map_cons, List.mem_cons]
      rw [mem_keys_dedupBy key as (key a :: seen) k]
      simp only [List.contains_cons, Bool.or_eq_false_iff,
        beq_eq_false_iff_ne]
      constructor
      · rintro (rfl | ⟨h1, h2, h3⟩)
        · exact ⟨Or.inl rfl, by simpa using hc⟩
        · exact ⟨Or.inr h1, h3⟩
      · rintro ⟨h1 | h1, h2⟩
        · exact Or.inl h1
        · by_cases hk : k = key a
          · exact Or.inl hk
          · exact Or.inr ⟨h1, hk, h2⟩

end HH

namespace HH

/-- C1 counterexample: "the first occurrence in the merged list wins" is
not a property of the program.  On the merged list
`demoItems = [itemC, itemA, itemB]`, where `itemA` and `itemB` share the
composite key (and hence the date), the order `[itemB, itemA, itemC]` is an
admissible outcome of the implementation-defined sort — it is a permutation
of the merged list that is pairwise non-increasing under the comparator
relation, and it is the order V8's TimSort produces by reversing the
equal-date run — yet deduplicating it keeps `itemB`, a different item from
the merged list's first occurrence `itemA` of that key. -/
theorem C1_counterexample :
    jsSortOrders demoItems [itemB, itemA, itemC] ∧
    demoItems.find? (fun y => key120 y == key120 itemB) = some itemA ∧
    itemA ≠ itemB ∧
    dedupBy key120 [itemB, itemA, itemC] [] = [itemB, itemC] := by
  refine ⟨⟨?_, by decide⟩, by decide, by decide, by decide⟩
  show List.Perm [itemB, itemA, itemC] [itemC, itemA, itemB]
  exact (List.Perm.swap itemA itemB [itemC]).trans
    ((List.Perm.cons itemA (List.Perm.swap itemC itemB [])).trans
      (List.Perm.swap itemC itemA [itemB]))

/-- C1 (amended): for every merged list and every admissible outcome of the
implementation-defined sort (any comparator-respecting permutation,
`jsSortOrders`), the dedup step keeps exactly one representative per
distinct composite key — key occurrence is preserved and the kept keys are
distinct — the output is sorted non-increasing by date under the comparator
order (with the empty date the minimum, hence sorting as oldest), and each
kept representative is one of the merged items with its key, namely the
first occurrence in the engine-produced sorted order; which of several
same-key merged items that is depends on the engine's tie order. -/
theorem C1_amended (l out : List Item1) (h : jsSortOrders l out) :
    ((dedupBy key120 out []).map key120).Nodup ∧
    (∀ k, k ∈ l.map key120 ↔ k ∈ (dedupBy key120 out []).map key120) ∧
    (dedupBy key120 out []).Pairwise (fun a b => item1Le a b = true) ∧
    (∀ x ∈ dedupBy key120 out [], x ∈ l ∧
      out.find? (fun y => key120 y == key120 x) = some x) := by
  obtain ⟨hperm, hsorted⟩ := h
  refine ⟨keys_dedupBy_nodup key120 _ [], ?_, ?_, ?_⟩
  · intro k
    rw [mem_keys_dedupBy key120 out [] k]
    have hm := (hperm.map key120).mem_iff (a := k)
    simp [hm]
  · exact hsorted.sublist (dedupBy_sublist key120 out [])
  · intro x hx
    have hdd := mem_dedupBy key120 out [] x hx
    have hmem : x ∈ out := (dedupBy_sublist key120 out []).subset hx
    exact ⟨hperm.mem_iff.mp hmem, hdd.2⟩

/-- C1 witness: the stable order `[itemA, itemB, itemC]` is one admissible
sort outcome of `demoItems`; there the kept representative of the
duplicated key is `itemA`, an element of the merged list and the first
occurrence in that sorted order. -/
theorem C1_amended_witness :
    itemA ∈ demoItems ∧
    [itemA, itemB, itemC].find? (fun y => key120 y == key120 itemA) = some itemA :=
  (C1_amended demoItems [itemA, itemB, itemC]
    ⟨(List.Perm.cons itemA (List.Perm.swap itemC itemB [])).trans
        (List.Perm.swap itemC itemA [itemB]),
      by decide⟩).2.2.2 itemA (by decide)

end HH

namespace HH

/-! ### C6: idempotence of `slugify`

The proof goes through the canonical-slug shape `isCanonicalSlug`:
`slugify` always produces a canonical slug (A-side), and every stage of the
pipeline is the identity on canonical slugs (B-side). -/

/-- Characters of a canonical slug are `[a-z0-9]` or `_`; numerically they
sit in `[97,122]`, `[48,57]` or at `95`. -/
theorem slug_bounds (c : Char) (h : isSlugChar c = true ∨ c = '_') :
    (97 ≤ c.toNat ∧ c.toNat ≤ 122) ∨ (48 ≤ c.toNat ∧ c.toNat ≤ 57) ∨ c.toNat = 95 := by
  rcases h with h | h
  · unfold isSlugChar at h
    simp only [Bool.or_eq_true, Bool.and_eq_true, decide_eq_true_eq] at h
    rcases h with h | h
    · exact Or.inl h
    · exact Or.inr (Or.inl h)
  · rw [h]
    exact Or.inr (Or.inr (by decide))

theorem goodChar_of (c : Char) (h : (isSlugChar c || c == '_') = true) :
    isSlugChar c = true ∨ c = '_' := by
  simp only [Bool.or_eq_true, beq_iff_eq] at h
  exact h

theorem char_beq_false_of_toNat {c d : Char} (h : c.toNat ≠ d.toNat) : (c == d) = false :=
  beq_eq_false_iff_ne.mpr (fun e => h (congrArg Char.toNat e))

/-- Slug characters are not JavaScript whitespace. -/
theorem slug_not_ws (c : Char) (h : isSlugChar c = true ∨ c = '_') :
    isJsWsChar c = false := by
  have hb := slug_bounds c h
  have hiv : 48 ≤ c.toNat ∧ c.toNat ≤ 122 := by
    rcases hb with ⟨a, b⟩ | ⟨a, b⟩ | a <;> omega
  obtain ⟨h1, h2⟩ := hiv
  have e1 : (c == ' ') = false := char_beq_false_of_toNat (show c.toNat ≠ 32 by omega)
  have e2 : (c == '\t') = false := char_beq_false_of_toNat (show c.toNat ≠ 9 by omega)
  have e3 : (c == '\n') = false := char_beq_false_of_toNat (show c.toNat ≠ 10 by omega)
  have e4 : (c == '\r') = false := char_beq_false_of_toNat (show c.toNat ≠ 13 by omega)
  have e5 : (c.toNat == 11) = false := beq_eq_false_iff_ne.mpr (by omega)
  have e6 : (c.toNat == 12) = false := beq_eq_false_iff_ne.mpr (by omega)
  have e7 : (c.toNat == 160) = false := beq_eq_false_iff_ne.mpr (by omega)
  have e8 : (c.toNat == 0x2028) = false := beq_eq_false_iff_ne.mpr (by omega)
  have e9 : (c.toNat == 0x2029) = false := beq_eq_false_iff_ne.mpr (by omega)
  have e10 : (c.toNat == 0xFEFF) = false := beq_eq_false_iff_ne.mpr (by omega)
  unfold isJsWsChar
  rw [e1, e2, e3, e4, e5, e6, e7, e8, e9, e10]
  rfl

theorem slug_ascii (c : Char) (h : isSlugChar c = true ∨ c = '_') : c.toNat < 128 := by
  rcases slug_bounds c h with ⟨a, b⟩ | ⟨a, b⟩ | a <;> omega

/-- Slug characters are fixed by `Char.toLower` (they are outside `A`–`Z`). -/
theorem slug_toLower (c : Char) (h : isSlugChar c = true ∨ c = '_') :
    c.toLower = c := by
  have hb := slug_bounds c h
  have hcond : ¬(c.toNat ≥ 65 ∧ c.toNat ≤ 90) := by
    rcases hb with ⟨a, b⟩ | ⟨a, b⟩ | a <;> omega
  show (if c.toNat ≥ 65 ∧ c.toNat ≤ 90 then Char.ofNat (c.toNat + 32) else c) = c
  rw [if_neg hcond]

theorem slug_not_mark (c : Char) (h : isSlugChar c = true ∨ c = '_') :
    combiningMark c = false := by
  have ha := slug_ascii c h
  unfold combiningMark
  have h1 : decide (0x300 ≤ c.toNat) = false := decide_eq_false_iff_not.mpr (by omega)
  rw [h1, Bool.false_and]

theorem slug_not_amp (c : Char) (h : isSlugChar c = true ∨ c = '_') :
    (c == '&') = false := by
  have hb := slug_bounds c h
  apply char_beq_false_of_toNat
  show c.toNat ≠ 38
  rcases hb with ⟨a, b⟩ | ⟨a, b⟩ | a <;> omega

/-- Every decomposition key of `nfdTable` is a non-ASCII character. -/
theorem nfdTable_big : ∀ e ∈ nfdTable, 128 ≤ e.1.toNat := by decide

/-- `normalize("NFD")` leaves ASCII characters untouched. -/
theorem nfdChar_fixed (c : Char) (h : c.toNat < 128) : nfdChar c = [c] := by
  have hnone : nfdTable.find? (fun e => e.1 == c) = none := by
    rw [List.find?_eq_none]
    intro e he hbe
    have h1 : e.1 = c := eq_of_beq hbe
    have h2 := nfdTable_big e he
    rw [h1] at h2
    omega
  unfold nfdChar
  rw [hnone]

theorem collapseWsGo_id (l : Str) (h : ∀ c ∈ l, isJsWsChar c = false) :
    ∀ b, collapseWsGo b l = l := by
  induction l with
  | nil => intro b; rfl
  | cons c t ih =>
    intro b
    have hc : isJsWsChar c = false := h c (List.mem_cons_self c t)
    have ht := ih (fun x hx => h x (List.mem_cons_of_mem c hx))
    simp [collapseWsGo, hc, ht]

theorem dropTrailing_cons_of_ne (p : Char → Bool) (c : Char) (t : Str)
    (h : dropTrailing p t ≠ []) :
    dropTrailing p (c :: t) = c :: dropTrailing p t := by
  cases hdt : dropTrailing p t with
  | nil => exact absurd hdt h
  | cons d ds => simp [dropTrailing, hdt]

theorem dropTrailing_id_of_last (p : Char → Bool) :
    ∀ l : Str, (∀ c, l.getLast? = some c → p c = false) → dropTrailing p l = l := by
  intro l
  induction l with
  | nil => intro _; rfl
  | cons c t ih =>
    intro h
    cases t with
    | nil =>
      have hc := h c (by simp)
      simp [dropTrailing, hc]
    | cons d ds =>
      have ht : dropTrailing p (d :: ds) = d :: ds :=
        ih (fun x hx => h x (by rw [List.getLast?_cons_cons]; exact hx))
      rw [dropTrailing_cons_of_ne p c (d :: ds) (by rw [ht]; simp), ht]

theorem trimWhile_id (p : Char → Bool) (l : Str)
    (hh : ∀ c, l.head? = some c → p c = false)
    (hl : ∀ c, l.getLast? = some c → p c = false) :
    trimWhile p l = l := by
  unfold trimWhile
  have h1 : l.dropWhile p = l := by
    cases l with
    | nil => rfl
    | cons c t =>
      rw [List.dropWhile_cons]
      simp [hh c rfl]
  rw [h1]
  exact dropTrailing_id_of_last p l hl

theorem flatMap_congr_single (f : Char → Str) (l : Str) (h : ∀ c ∈ l, f c = [c]) :
    l.flatMap f = l := by
  induction l with
  | nil => rfl
  | cons c t ih =>
    rw [List.flatMap_cons, h c (List.mem_cons_self c t),
      ih (fun x hx => h x (List.mem_cons_of_mem c hx))]
    rfl

theorem map_congr_id (f : Char → Char) (l : Str) (h : ∀ c ∈ l, f c = c) :
    l.map f = l := by
  induction l with
  | nil => rfl
  | cons c t ih =>
    rw [List.map_cons, h c (List.mem_cons_self c t),
      ih (fun x hx => h x (List.mem_cons_of_mem c hx))]

theorem noDD_tail (c : Char) (t : Str) (h : noDD (c :: t) = true) : noDD t = true := by
  cases t with
  | nil => rfl
  | cons d ds =>
    simp only [noDD, Bool.and_eq_true] at h
    exact h.2

theorem noDD_cons_of (c : Char) (r : Str)
    (h1 : c ≠ '_' ∨ r.head? ≠ some '_') (h2 : noDD r = true) :
    noDD (c :: r) = true := by
  cases r with
  | nil => rfl
  | cons d ds =>
    have hp : (c == '_' && d == '_') = false := by
      rcases h1 with h | h
      · rw [beq_eq_false_iff_ne.mpr h, Bool.false_and]
      · have hd : d ≠ '_' := by simpa using h
        rw [beq_eq_false_iff_ne.mpr hd, Bool.and_false]
    simp only [noDD, hp, Bool.not_false, Bool.true_and]
    exact h2

/-- `collapseNonAlnum` is the identity on canonical material: all characters
slug-or-underscore, no double underscore, and (when the in-run flag is set)
no leading underscore. -/
theorem collapseNA_id (l : Str) :
    ∀ b, (∀ c ∈ l, isSlugChar c = true ∨ c = '_') → noDD l = true →
      (b = true → l.head? ≠ some '_') → collapseNonAlnum b l = l := by
  induction l with
  | nil => intro b _ _ _; rfl
  | cons c t ih =>
    intro b hall hnd hhd
    have hallt : ∀ x ∈ t, isSlugChar x = true ∨ x = '_' :=
      fun x hx => hall x (List.mem_cons_of_mem c hx)
    have hndt : noDD t = true := noDD_tail c t hnd
    by_cases hc : isSlugChar c = true
    · rw [show collapseNonAlnum b (c :: t) = c :: collapseNonAlnum false t from by
        simp [collapseNonAlnum, hc]]
      rw [ih false hallt hndt (fun hf => Bool.noConfusion hf)]
    · have hcu : c = '_' := (hall c (List.mem_cons_self c t)).resolve_left hc
      subst hcu
      cases b with
      | true => exact absurd rfl (hhd rfl)
      | false =>
        have hsl : isSlugChar '_' = false := by decide
        rw [show collapseNonAlnum false ('_' :: t) = '_' :: collapseNonAlnum true t from by
          simp [collapseNonAlnum, hsl]]
        have hhd2 : t.head? ≠ some '_' := by
          cases t with
          | nil => simp
          | cons d ds =>
            intro hd
            have hdu : d = '_' := by simpa using hd
            rw [hdu] at hnd
            simp [noDD] at hnd
        rw [ih true hallt hndt (fun _ => hhd2)]

/-- Characters emitted by `collapseNonAlnum` are slug characters or `_`. -/
theorem mem_collapseNA (l : Str) :
    ∀ (b : Bool) (c : Char), c ∈ collapseNonAlnum b l →
      isSlugChar c = true ∨ c = '_' := by
  induction l with
  | nil =>
    intro b c hc
    simp [collapseNonAlnum] at hc
  | cons d t ih =>
    intro b c hc
    cases hds : isSlugChar d with
    | true =>
      rw [show collapseNonAlnum b (d :: t) = d :: collapseNonAlnum false t from by
        simp [collapseNonAlnum, hds]] at hc
      rcases List.mem_cons.mp hc with h | h
      · rw [h]; exact Or.inl hds
      · exact ih false c h
    | false =>
      cases b with
      | true =>
        rw [show collapseNonAlnum true (d :: t) = collapseNonAlnum true t from by
          simp [collapseNonAlnum, hds]] at hc
        exact ih true c hc
      | false =>
        rw [show collapseNonAlnum false (d :: t) = '_' :: collapseNonAlnum true t from by
          simp [collapseNonAlnum, hds]] at hc
        rcases List.mem_cons.mp hc with h | h
        · exact Or.inr h
        · exact ih true c h

/-- With the in-run flag set, `collapseNonAlnum` never emits a leading
underscore. -/
theorem head_collapseNA_true (l : Str) :
    (collapseNonAlnum true l).head? ≠ some '_' := by
  induction l with
  | nil => simp [collapseNonAlnum]
  | cons d t ih =>
    cases hds : isSlugChar d with
    | true =>
      rw [show collapseNonAlnum true (d :: t) = d :: collapseNonAlnum false t from by
        simp [collapseNonAlnum, hds]]
      intro h
      have hd : d = '_' := by simpa using h
      rw [hd] at hds
      exact absurd hds (by decide)
    | false =>
      rw [show collapseNonAlnum true (d :: t) = collapseNonAlnum true t from by
        simp [collapseNonAlnum, hds]]
      exact ih

/-- `collapseNonAlnum` never emits two adjacent underscores. -/
theorem noDD_collapseNA (l : Str) : ∀ b, noDD (collapseNonAlnum b l) = true := by
  induction l with
  | nil => intro b; rfl
  | cons d t ih =>
    intro b
    cases hds : isSlugChar d with
    | true =>
      rw [show collapseNonAlnum b (d :: t) = d :: collapseNonAlnum false t from by
        simp [collapseNonAlnum, hds]]
      apply noDD_cons_of
      · left
        intro he
        rw [he] at hds
        exact absurd hds (by decide)
      · exact ih false
    | false =>
      cases b with
      | true =>
        rw [show collapseNonAlnum true (d :: t) = collapseNonAlnum true t from by
          simp [collapseNonAlnum, hds]]
        exact ih true
      | false =>
        rw [show collapseNonAlnum false (d :: t) = '_' :: collapseNonAlnum true t from by
          simp [collapseNonAlnum, hds]]
        exact noDD_cons_of '_' _ (Or.inr (head_collapseNA_true t)) (ih true)

theorem dropTrailing_sublist (p : Char → Bool) :
    ∀ l : Str, List.Sublist (dropTrailing p l) l := by
  intro l
  induction l with
  | nil => exact List.Sublist.refl []
  | cons c t ih =>
    cases hdt : dropTrailing p t with
    | nil =>
      rw [show dropTrailing p (c :: t) = if p c then [] else [c] from by
        simp [dropTrailing, hdt]]
      split
      · exact List.nil_sublist _
      · exact List.Sublist.cons₂ c (List.nil_sublist t)
    | cons d ds =>
      rw [show dropTrailing p (c :: t) = c :: d :: ds from by
        simp [dropTrailing, hdt]]
      exact List.Sublist.cons₂ c (hdt ▸ ih)

/-- `dropTrailing` preserves the head of the list when it keeps anything. -/
theorem head_dropTrailing (p : Char → Bool) :
    ∀ l : Str, dropTrailing p l = [] ∨ (dropTrailing p l).head? = l.head? := by
  intro l
  cases l with
  | nil => exact Or.inl rfl
  | cons c t =>
    cases hdt : dropTrailing p t with
    | nil =>
      rw [show dropTrailing p (c :: t) = if p c then [] else [c] from by
        simp [dropTrailing, hdt]]
      by_cases hp : p c = true
      · rw [if_pos hp]; exact Or.inl rfl
      · rw [if_neg hp]; exact Or.inr rfl
    | cons d ds =>
      rw [show dropTrailing p (c :: t) = c :: d :: ds from by
        simp [dropTrailing, hdt]]
      exact Or.inr rfl

/-- The last character kept by `dropTrailing` does not satisfy `p`. -/
theorem getLast_dropTrailing (p : Char → Bool) :
    ∀ (l : Str) (c : Char), (dropTrailing p l).getLast? = some c → p c = false := by
  intro l
  induction l with
  | nil =>
    intro c h
    simp [dropTrailing] at h
  | cons a t ih =>
    intro c h
    cases hdt : dropTrailing p t with
    | nil =>
      rw [show dropTrailing p (a :: t) = if p a then [] else [a] from by
        simp [dropTrailing, hdt]] at h
      by_cases hp : p a = true
      · rw [if_pos hp] at h
        simp at h
      · rw [if_neg hp] at h
        have hac : a = c := by simpa using h
        rw [← hac]
        exact (Bool.not_eq_true (p a)) ▸ hp
    | cons d ds =>
      rw [show dropTrailing p (a :: t) = a :: d :: ds from by
        simp [dropTrailing, hdt]] at h
      rw [List.getLast?_cons_cons] at h
      exact ih c (by rw [hdt]; exact h)

theorem noDD_dropWhile (p : Char → Bool) :
    ∀ l : Str, noDD l = true → noDD (l.dropWhile p) = true := by
  intro l
  induction l with
  | nil => intro h; exact h
  | cons c t ih =>
    intro h
    rw [List.dropWhile_cons]
    split
    · exact ih (noDD_tail c t h)
    · exact h

theorem noDD_dropTrailing (p : Char → Bool) :
    ∀ l : Str, noDD l = true → noDD (dropTrailing p l) = true := by
  intro l
  induction l with
  | nil => intro h; exact h
  | cons c t ih =>
    intro h
    cases hdt : dropTrailing p t with
    | nil =>
      rw [show dropTrailing p (c :: t) = if p c then [] else [c] from by
        simp [dropTrailing, hdt]]
      split
      · rfl
      · rfl
    | cons d ds =>
      rw [show dropTrailing p (c :: t) = c :: d :: ds from by
        simp [dropTrailing, hdt]]
      have ihn : noDD (d :: ds) = true := by
        have h2 := ih (noDD_tail c t h)
        rwa [hdt] at h2
      apply noDD_cons_of
      · rcases head_dropTrailing p t with he | hh
        · rw [hdt] at he
          exact absurd he (by simp)
        · rw [hdt] at hh
          cases t with
          | nil => simp [dropTrailing] at hdt
          | cons e es =>
            have hde : d = e := by simpa using hh
            simp only [noDD, Bool.and_eq_true] at h
            have h1 := h.1
            by_cases hc : c = '_'
            · right
              intro hhead
              have hdu : d = '_' := by simpa using hhead
              rw [hc] at h1
              rw [← hde, hdu] at h1
              simp at h1
            · exact Or.inl hc
      · exact ihn

theorem headNotUnd_of (l : Str) (h : ∀ c, l.head? = some c → (c == '_') = false) :
    headNotUnd l = true := by
  unfold headNotUnd
  cases hh : l.head? with
  | none => rfl
  | some c => simp [h c hh]

theorem lastNotUnd_of (l : Str) (h : ∀ c, l.getLast? = some c → (c == '_') = false) :
    lastNotUnd l = true := by
  unfold lastNotUnd
  cases hh : l.getLast? with
  | none => rfl
  | some c => simp [h c hh]

/-- Trimming underscores from canonical material yields a canonical slug. -/
theorem trim_canonical (m : Str)
    (hall : ∀ c ∈ m, isSlugChar c = true ∨ c = '_')
    (hnd : noDD m = true) :
    isCanonicalSlug (trimWhile (fun c => c == '_') m) = true := by
  unfold isCanonicalSlug trimWhile
  simp only [Bool.and_eq_true]
  refine ⟨⟨⟨?_, ?_⟩, ?_⟩, ?_⟩
  · apply List.all_eq_true.mpr
    intro c hc
    have hm1 : c ∈ m.dropWhile (fun c => c == '_') :=
      (dropTrailing_sublist (fun c => c == '_') _).subset hc
    have hm2 : c ∈ m := (List.dropWhile_sublist (fun c => c == '_')).subset hm1
    rcases hall c hm2 with hs | hu
    · simp [hs]
    · simp [hu]
  · exact noDD_dropTrailing _ _ (noDD_dropWhile _ _ hnd)
  · apply headNotUnd_of
    intro c hc
    rcases head_dropTrailing (fun c => c == '_') (m.dropWhile (fun c => c == '_')) with he | hh
    · rw [he] at hc
      simp at hc
    · have h1 : (m.dropWhile (fun c => c == '_')).head? = some c := hh.symm.trans hc
      have hw := List.head?_dropWhile_not (fun c => c == '_') m
      rw [h1] at hw
      exact hw
  · apply lastNotUnd_of
    intro c hc
    exact getLast_dropTrailing (fun c => c == '_') _ c hc

/-- A-side: `slugify` always produces a canonical slug. -/
theorem slugify_canonical (l : Str) : isCanonicalSlug (slugify l) = true := by
  unfold slugify
  apply trim_canonical
  · intro c hc
    exact mem_collapseNA _ false c hc
  · exact noDD_collapseNA _ false

/-- B-side: `slugify` is the identity on canonical slugs. -/
theorem slugify_id_of_canonical (l : Str) (h : isCanonicalSlug l = true) :
    slugify l = l := by
  unfold isCanonicalSlug at h
  simp only [Bool.and_eq_true, List.all_eq_true] at h
  obtain ⟨⟨⟨hall, hnd⟩, hhd⟩, hld⟩ := h
  have hgood : ∀ c ∈ l, isSlugChar c = true ∨ c = '_' :=
    fun c hc => goodChar_of c (hall c hc)
  have h1 : cleanStr l = l := by
    unfold cleanStr
    rw [collapseWsGo_id l (fun c hc => slug_not_ws c (hgood c hc)) false]
    apply trimWhile_id
    · intro c hc
      exact slug_not_ws c (hgood c (List.mem_of_mem_head? (by rw [Option.mem_def]; exact hc)))
    · intro c hc
      exact slug_not_ws c (hgood c (List.mem_of_mem_getLast? (by rw [Option.mem_def]; exact hc)))
  have h2 : nfd l = l :=
    flatMap_congr_single nfdChar l
      (fun c hc => nfdChar_fixed c (slug_ascii c (hgood c hc)))
  have h3 : stripMarks l = l := by
    unfold stripMarks
    apply List.filter_eq_self.mpr
    intro c hc
    simp [slug_not_mark c (hgood c hc)]
  have h4 : lowerStr l = l :=
    map_congr_id Char.toLower l (fun c hc => slug_toLower c (hgood c hc))
  have h5 : ampToAnd l = l := by
    unfold ampToAnd
    apply flatMap_congr_single
    intro c hc
    simp [slug_not_amp c (hgood c hc)]
  have h6 : collapseNonAlnum false l = l :=
    collapseNA_id l false hgood hnd (fun hf => Bool.noConfusion hf)
  have h7 : trimWhile (fun c => c == '_') l = l := by
    apply trimWhile_id
    · intro c hc
      unfold headNotUnd at hhd
      rw [hc] at hhd
      simpa using hhd
    · intro c hc
      unfold lastNotUnd at hld
      rw [hc] at hld
      simpa using hld
  unfold slugify
  rw [h1, h2, h3, h4, h5, h6, h7]

/-- C6: `slugify` is idempotent — a second application of the normalizer is
the identity on any first application's output — and on the concrete inputs
it yields `slugify "New York Knicks" = "new_york_knicks"` and
`slugify "76ers" = "76ers"`. -/
theorem C6_slugify_idempotent :
    (∀ x : String, slugifyTag (slugifyTag x) = slugifyTag x) ∧
    slugifyTag "New York Knicks" = "new_york_knicks" ∧
    slugifyTag "76ers" = "76ers" :=
  ⟨fun x => congrArg String.mk
      (slugify_id_of_canonical (slugify x.data) (slugify_canonical x.data)),
    by decide, by decide⟩

end HH
